import Mathlib

/-!
Verification development for the OpenPIV GPU cross-correlation module
(`openpiv/pyprocess_gpu.py`).

The Python module is shallowly embedded here:

* numpy / cupy arrays of correlation windows become the structure `Arr3`
  (a batch of `n` two-dimensional maps of shape `rows × cols`, stored as a
  total function `ℕ → ℕ → ℕ → α`; indices outside the declared shape carry
  junk that no theorem depends on);
* floating point numbers are modelled as exact rationals (`ℚ`) for the
  purely order-and-field-arithmetic functions (peak finding, signal-to-noise)
  and as real numbers (`ℝ`) for the functions that use `log`, `sqrt` or the
  FFT (sub-pixel estimation, intensity normalisation, the correlation
  pipeline).  `NaN` values, which the source code uses as explicit sentinels,
  are modelled as `Option` (`none` = NaN);
* the numpy FFT routines `rfft2` / `irfft2` / `fftshift` are external
  library collaborators; they are embedded by their documented semantics
  (discrete Fourier sums, the documented output-length rule
  `n = 2*(m-1)` of `irfft2`, and the documented roll of `fftshift`);
* Python method-name strings are embedded as small inductive types whose
  extra constructor stands for every unsupported name;
* in-place mutation (`corr += eps`, masked views) is embedded by returning
  the final state of the array next to the result;
* exceptions become `Except`, and the pipeline additionally returns a trace
  of the array-processing work performed before returning or failing.
-/

namespace PivGpu

/-- Batch of `n` two-dimensional maps (`rows × cols`), the shallow embedding
of a 3-d numpy/cupy array.  `data k p q` is entry `(p, q)` of window `k`. -/
structure Arr3 (α : Type) where
  n : ℕ
  rows : ℕ
  cols : ℕ
  data : ℕ → ℕ → ℕ → α

/-- Embedding of the `subpixel_method` string argument.  The constructor
`unsupported` stands for every string other than the three known names. -/
inductive SubpixMethod
  | gaussian
  | centroid
  | parabolic
  | unsupported
deriving DecidableEq

/-- Embedding of the `correlation_method` string argument. -/
inductive CorrMethod
  | circular
  | linear
  | unsupported
deriving DecidableEq

/-- Embedding of the `sig2noise_method` string argument. -/
inductive S2nMethod
  | peak2peak
  | peak2mean
  | unsupported
deriving DecidableEq

/-!
## Grid geometry (`get_field_shape`)

    field_shape = (np.array(image_size) - np.array(search_area_size)) // (
        np.array(search_area_size) - np.array(overlap)
    ) + 1

numpy's `//` on signed integers is floor division, embedded as `Int.fdiv`.
-/

/-- Embedding of `get_field_shape` (source lines 34-70).  Sizes are natural
numbers; the arithmetic is carried out in `ℤ` with floor division exactly as
numpy does. -/
def get_field_shape (image_size search_area_size overlap : ℕ × ℕ) : ℤ × ℤ :=
  (Int.fdiv ((image_size.1 : ℤ) - search_area_size.1)
      ((search_area_size.1 : ℤ) - overlap.1) + 1,
   Int.fdiv ((image_size.2 : ℤ) - search_area_size.2)
      ((search_area_size.2 : ℤ) - overlap.2) + 1)

/-- Modelled from the spec: the field-shape formula of spec §3,
`floor((image_dim - window_dim) / (window_dim - overlap_dim)) + 1` per axis,
with the floor realised by natural-number division. -/
def fieldShapeSpec (image_size search_area_size overlap : ℕ × ℕ) : ℕ × ℕ :=
  ((image_size.1 - search_area_size.1) / (search_area_size.1 - overlap.1) + 1,
   (image_size.2 - search_area_size.2) / (search_area_size.2 - overlap.2) + 1)

theorem int_fdiv_eq_natCast_div (a b : ℕ) :
    Int.fdiv (a : ℤ) (b : ℤ) = ((a / b : ℕ) : ℤ) := by
  rw [Int.fdiv_eq_ediv _ (by positivity)]
  exact_mod_cast rfl

/-- C2: for every valid configuration (window strictly larger than the
overlap and no larger than the image on both axes), `get_field_shape`
computes `floor((image - window) / (window - overlap)) + 1` componentwise. -/
theorem get_field_shape_valid (image_size search_area_size overlap : ℕ × ℕ)
    (h1 : overlap.1 < search_area_size.1) (h2 : overlap.2 < search_area_size.2)
    (h3 : search_area_size.1 ≤ image_size.1)
    (h4 : search_area_size.2 ≤ image_size.2) :
    get_field_shape image_size search_area_size overlap =
      (((fieldShapeSpec image_size search_area_size overlap).1 : ℤ),
       ((fieldShapeSpec image_size search_area_size overlap).2 : ℤ)) := by
  unfold get_field_shape fieldShapeSpec
  have e1 : (image_size.1 : ℤ) - search_area_size.1 =
      ((image_size.1 - search_area_size.1 : ℕ) : ℤ) := by omega
  have e2 : (search_area_size.1 : ℤ) - overlap.1 =
      ((search_area_size.1 - overlap.1 : ℕ) : ℤ) := by omega
  have e3 : (image_size.2 : ℤ) - search_area_size.2 =
      ((image_size.2 - search_area_size.2 : ℕ) : ℤ) := by omega
  have e4 : (search_area_size.2 : ℤ) - overlap.2 =
      ((search_area_size.2 - overlap.2 : ℕ) : ℤ) := by omega
  rw [e1, e2, e3, e4, int_fdiv_eq_natCast_div, int_fdiv_eq_natCast_div]
  push_cast
  rfl

/-- Witness for C2 at a concrete valid configuration: a 128×128 image,
32×32 windows with overlap 16 give a 7×7 field. -/
theorem get_field_shape_valid_witness :
    get_field_shape (128, 128) (32, 32) (16, 16) = ((7 : ℤ), (7 : ℤ)) := by
  have h := get_field_shape_valid (128, 128) (32, 32) (16, 16)
    (by decide) (by decide) (by decide) (by decide)
  rw [h]
  decide

/-!
## Peak finding

`np.argmax` / `corr.reshape(N, -1).argmax(-1)` flatten a map row-major and
return the first index attaining the maximum.  The fold below keeps the
current best and replaces it only on a strictly larger value, which gives
exactly the first-occurrence semantics.  The functions are polymorphic in
the entry type, as the numpy routines are in the dtype.
-/

section PeakFinding

variable {α : Type} [LinearOrder α]

/-- Row-major flattened argmax of a `rows × cols` map: the first flat index
attaining the maximum, as `np.argmax` returns. -/
def argmaxFlat (rows cols : ℕ) (f : ℕ → ℕ → α) : ℕ :=
  (List.range (rows * cols)).foldl
    (fun best t => if f (best / cols) (best % cols) < f (t / cols) (t % cols) then t else best) 0

/-- Maximum entry of a `rows × cols` map, the embedding of `corr.max()` /
`cp.nanmax(corr, axis=(-2,-1))` (the embedded maps carry no NaN). -/
def arrMaxVal (rows cols : ℕ) (f : ℕ → ℕ → α) : α :=
  (List.range (rows * cols)).foldl (fun m t => max m (f (t / cols) (t % cols))) (f 0 0)

/-- Embedding of `find_first_peak` (source lines 258-274): unraveled argmax
position together with the maximum value. -/
def find_first_peak (rows cols : ℕ) (f : ℕ → ℕ → α) : (ℕ × ℕ) × α :=
  ((argmaxFlat rows cols f / cols, argmaxFlat rows cols f % cols), arrMaxVal rows cols f)

/-- Embedding of `find_all_first_peaks` (source lines 330-349).  The source
stacks `(arange N, peak_i, peak_j)` columns; the `arange` column is the
window index itself, so the embedding returns the position and value per
window index. -/
def find_all_first_peaks (X : Arr3 α) : (ℕ → ℕ × ℕ) × (ℕ → α) :=
  (fun k => (argmaxFlat X.rows X.cols (X.data k) / X.cols,
             argmaxFlat X.rows X.cols (X.data k) % X.cols),
   fun k => arrMaxVal X.rows X.cols (X.data k))

/-- First-occurrence maximum over the unmasked entries of a map, the
embedding of running `np.argmax` / `max` on a `np.ma.MaskedArray` view:
masked entries are never selected; `none` when everything is masked. -/
def maskedBest (rows cols : ℕ) (f : ℕ → ℕ → α) (msk : ℕ → ℕ → Bool) :
    Option (ℕ × α) :=
  (List.range (rows * cols)).foldl
    (fun acc t =>
      if msk (t / cols) (t % cols) then acc
      else
        match acc with
        | none => some (t, f (t / cols) (t % cols))
        | some (_, v) =>
            if v < f (t / cols) (t % cols) then some (t, f (t / cols) (t % cols)) else acc)
    none

/-- Embedding of `find_second_peak` (source lines 277-327): mask the square
of half-width `width` around `(i, j)`, clamped to the map bounds, and find
the first peak of the masked view.  The masked view shares the caller's
data and the assignment `tmp[iini:ifin, jini:jfin] = ma.masked` sets only
the mask, so the data of the caller's array is returned unchanged as the
final state.  `none` as value models the fully-masked `ma.masked` result
(`np.argmax` then yields index 0). -/
def find_second_peak (rows cols : ℕ) (f : ℕ → ℕ → α) (i j width : ℕ) :
    ((ℕ × ℕ) × Option α) × (ℕ → ℕ → α) :=
  let iini := i - width
  let ifin := min (i + width + 1) rows
  let jini := j - width
  let jfin := min (j + width + 1) cols
  let msk : ℕ → ℕ → Bool := fun p q =>
    decide (iini ≤ p ∧ p < ifin ∧ jini ≤ q ∧ q < jfin)
  match maskedBest rows cols f msk with
  | some (t, v) => (((t / cols, t % cols), some v), f)
  | none => (((0, 0), none), f)

/-- Embedding of `find_all_second_peaks` (source lines 352-388): per window,
mask the clamped square of half-width `width` around that window's first
peak on a masked view of the batch, then rerun the first-peak search.  As
in `find_second_peak` the data of the caller's batch is untouched (only the
view's mask is written) and is returned as the final state. -/
def find_all_second_peaks (X : Arr3 α) (width : ℕ) :
    ((ℕ → ℕ × ℕ) × (ℕ → Option α)) × Arr3 α :=
  let firsts := (find_all_first_peaks X).1
  let one := fun k =>
    let i := (firsts k).1
    let j := (firsts k).2
    let msk : ℕ → ℕ → Bool := fun p q =>
      decide (i - width ≤ p ∧ p < min (i + width + 1) X.rows ∧
              j - width ≤ q ∧ q < min (j + width + 1) X.cols)
    maskedBest X.rows X.cols (X.data k) msk
  ((fun k => match one k with
             | some (t, _) => (t / X.cols, t % X.cols)
             | none => (0, 0),
    fun k => match one k with
             | some (_, v) => some v
             | none => none), X)

end PeakFinding

/-!
### Evaluation lemmas for the argmax fold
-/

section ArgmaxLemmas

variable {α : Type} [LinearOrder α]

theorem foldl_argmax_const (l : List ℕ) (s : ℕ) (g : ℕ → α)
    (hc : ∀ t ∈ l, ¬ g s < g t) :
    l.foldl (fun best t => if g best < g t then t else best) s = s := by
  induction l with
  | nil => rfl
  | cons a l ih =>
      simp only [List.foldl_cons]
      rw [if_neg (hc a (List.mem_cons_self a l))]
      exact ih (fun t ht => hc t (List.mem_cons_of_mem a ht))

/-- Argmax of a constant map is the first index, flat 0. -/
theorem argmaxFlat_const (rows cols : ℕ) (x : α) :
    argmaxFlat rows cols (fun _ _ => x) = 0 := by
  unfold argmaxFlat
  exact foldl_argmax_const _ _ _ (fun t _ => lt_irrefl x)

theorem foldl_argmax_reaches_top (l : List ℕ) (t0 : ℕ) (g : ℕ → α) :
    ∀ s, t0 ∈ l → (∀ t ∈ l, t ≠ t0 → g t < g t0) → (s ≠ t0 → g s < g t0) →
    l.foldl (fun best t => if g best < g t then t else best) s = t0 := by
  induction l with
  | nil => intro s hmem _ _; exact absurd hmem (List.not_mem_nil t0)
  | cons a l ih =>
      intro s hmem hmax hs
      simp only [List.foldl_cons]
      by_cases ha : a = t0
      · subst ha
        have hstep : (if g s < g a then a else s) = a := by
          by_cases hsa : s = a
          · subst hsa; rw [if_neg (lt_irrefl (g s))]
          · rw [if_pos (hs hsa)]
        rw [hstep]
        exact foldl_argmax_const l a g (fun t ht hlt => by
          by_cases hta : t = a
          · exact absurd (hta ▸ hlt) (lt_irrefl (g a))
          · exact absurd hlt (not_lt_of_gt (hmax t (List.mem_cons_of_mem a ht) hta)))
      · have hmem' : t0 ∈ l := by
          rcases List.mem_cons.mp hmem with h | h
          · exact absurd h.symm ha
          · exact h
        have hmax' : ∀ t ∈ l, t ≠ t0 → g t < g t0 :=
          fun t ht => hmax t (List.mem_cons_of_mem a ht)
        by_cases hsa : g s < g a
        · rw [if_pos hsa]
          exact ih a hmem' hmax' (fun _ => hmax a (List.mem_cons_self a l) ha)
        · rw [if_neg hsa]
          exact ih s hmem' hmax' hs

/-- Argmax of a map with a strict maximum at in-range position `(i, j)`. -/
theorem argmaxFlat_strict (rows cols : ℕ) (f : ℕ → ℕ → α) (i j : ℕ)
    (hi : i < rows) (hj : j < cols)
    (hmax : ∀ p q, p < rows → q < cols → ¬ (p = i ∧ q = j) → f p q < f i j) :
    argmaxFlat rows cols f = i * cols + j := by
  unfold argmaxFlat
  have hc : 0 < cols := by omega
  have hdiv : (i * cols + j) / cols = i := by
    rw [Nat.mul_comm, Nat.mul_add_div hc, Nat.div_eq_of_lt hj]
    omega
  have hmod : (i * cols + j) % cols = j := by
    rw [Nat.mul_comm, Nat.mul_add_mod, Nat.mod_eq_of_lt hj]
  apply foldl_argmax_reaches_top
  · exact List.mem_range.mpr (by
      calc i * cols + j < i * cols + cols := by omega
        _ = (i + 1) * cols := by ring
        _ ≤ rows * cols := Nat.mul_le_mul_right cols hi)
  · intro t ht htne
    have htr := List.mem_range.mp ht
    have := hmax (t / cols) (t % cols)
      (Nat.div_lt_of_lt_mul (Nat.mul_comm rows cols ▸ htr))
      (Nat.mod_lt t hc) (by
        rintro ⟨h1, h2⟩
        refine htne ?_
        conv_lhs => rw [← Nat.div_add_mod t cols]
        rw [h1, h2, Nat.mul_comm])
    simpa [hdiv, hmod] using this
  · intro h0
    have := hmax 0 0 (by omega) hc (by
      rintro ⟨h1, h2⟩
      subst h1
      subst h2
      exact h0 (by simp))
    simpa [hdiv, hmod, Nat.zero_div, Nat.zero_mod] using this

end ArgmaxLemmas

/-!
## Signal-to-noise evaluation

`sig2noise_ratio` (loop over windows) and `vectorized_sig2noise_ratio` are
embedded over `ℚ` (they use only order comparisons and field arithmetic;
exact rationals model the float values).  The deliberate `np.nan` sentinels
of the source are modelled as `Option.none` before the final coercion to 0.
Unsupported method names map to the `unsupported` constructor and raise.
-/

/-- Mean of the in-range entries of a `rows × cols` map,
embedding `a.mean(axis=(-2, -1))`. -/
def arrMean {α : Type} [Field α] (rows cols : ℕ) (f : ℕ → ℕ → α) : α :=
  (∑ p ∈ Finset.range rows, ∑ q ∈ Finset.range cols, f p q) / (rows * cols : α)

/-- Embedding of `sig2noise_ratio` (source lines 489-598), the per-window
loop implementation.  Per window: first peak and amplitude; windows whose
first-peak amplitude is below `1e-3` or whose first peak touches a border
get ratio 0; otherwise the second peak is searched with the masked view,
degenerate second peaks (`corr_max2 == 0`, or border second peak exceeding
half the first) become `np.nan`, and the final
`sig2noise[np.isnan(sig2noise)] = 0.0` coerces every NaN to 0. -/
def sig2noise_ratio_loop (X : Arr3 ℚ) (method : S2nMethod) (width : ℕ) :
    Except Unit (ℕ → ℚ) :=
  match method with
  | .peak2peak =>
      .ok (fun k =>
        let w := X.data k
        let fp := find_first_peak X.rows X.cols w
        let i := fp.1.1
        let j := fp.1.2
        let m1 := fp.2
        if m1 < 1 / 1000 ∨ i = 0 ∨ i = X.rows - 1 ∨ j = 0 ∨ j = X.cols - 1 then 0
        else
          let sp := (find_second_peak X.rows X.cols w i j width).1
          let i2 := sp.1.1
          let j2 := sp.1.2
          let m2 : Option ℚ :=
            match sp.2 with
            | none => none
            | some v =>
                if v = 0 ∨ ((i2 = 0 ∨ i2 = X.rows - 1 ∨ j2 = 0 ∨ j2 = X.cols - 1) ∧
                    1 / 2 * m1 < v) then none
                else some v
          match m2 with
          | none => 0
          | some v => m1 / v)
  | .peak2mean =>
      .ok (fun k =>
        let w := X.data k
        let fp := find_first_peak X.rows X.cols w
        let i := fp.1.1
        let j := fp.1.2
        let m1 := fp.2
        let m1' : ℚ :=
          if m1 < 1 / 1000 ∨ i = 0 ∨ i = X.rows - 1 ∨ j = 0 ∨ j = X.cols - 1 then 0
          else m1
        let m2 := |arrMean X.rows X.cols w|
        if m2 = 0 then 0 else m1' / m2)
  | .unsupported => .error ()

/-- Embedding of the invalid-window flag array built by
`vectorized_sig2noise_ratio` in its `peak2peak` branch (source lines
637-648).  The source then executes `peak2peak[flag is True] = 0`: the
expression `flag is True` compares the ndarray `flag` with the singleton
`True` by object identity, yielding the Python scalar `False`, and indexing
with that scalar selects an empty slice, so the assignment replaces
nothing.  The flag is therefore computed but never applied. -/
def vecS2nFlag (X : Arr3 ℚ) (width : ℕ) : ℕ → Bool :=
  fun k =>
    let fp := (find_all_first_peaks X).1 k
    let m1 := (find_all_first_peaks X).2 k
    let sp := ((find_all_second_peaks X width).1.1) k
    let m2 := ((find_all_second_peaks X width).1.2) k
    decide (m1 < 1 / 1000) || decide (fp.1 = 0) || decide (fp.1 = X.rows - 1) ||
      decide (fp.2 = 0) || decide (fp.2 = X.cols - 1) ||
      (match m2 with | some v => decide (v < 1 / 1000) | none => true) ||
      decide (sp.1 = 0) || decide (sp.1 = X.rows - 1) ||
      decide (sp.2 = 0) || decide (sp.2 = X.cols - 1)

/-- Embedding of `vectorized_sig2noise_ratio` (source lines 601-679).
`np.divide(peaks1, peaks2, out=np.zeros_like(peaks1), where=(peaks2 > 0.0))`
yields the ratio where the denominator is positive and 0 elsewhere.  The
subsequent `peak2peak[flag is True] = 0` (and the analogous line of the
`peak2mean` branch) is a no-op — see `vecS2nFlag` — so the flag never
reaches the returned array. -/
def vectorized_sig2noise (X : Arr3 ℚ) (method : S2nMethod) (width : ℕ) :
    Except Unit (ℕ → ℚ) :=
  match method with
  | .peak2peak =>
      .ok (fun k =>
        let m1 := (find_all_first_peaks X).2 k
        match ((find_all_second_peaks X width).1.2) k with
        | some v2 => if 0 < v2 then m1 / v2 else 0
        | none => 0)
  | .peak2mean =>
      .ok (fun k =>
        let m1 := (find_all_first_peaks X).2 k
        let m2 := |arrMean X.rows X.cols (X.data k)|
        if 0 < m2 then m1 / m2 else 0)
  | .unsupported => .error ()

/-- Result of a signal-to-noise computation at window `k`,
`none` when the method raised. -/
def s2nAt (e : Except Unit (ℕ → ℚ)) (k : ℕ) : Option ℚ :=
  match e with
  | .ok u => some (u k)
  | .error _ => none

/-- Failing input for C7: a single 5×5 correlation map whose first peak has
the sub-threshold amplitude `1/2000 < 1e-3` at the interior position
`(2, 2)`, with a second peak `1/4000` at the corner. -/
def c7CorrBatch : Arr3 ℚ :=
  ⟨1, 5, 5, fun _ p q =>
    if p = 2 ∧ q = 2 then 1 / 2000 else if p = 0 ∧ q = 0 then 1 / 4000 else 0⟩

/-- C7 (code bug): on a window whose first-peak amplitude is below `1e-3`,
the loop implementation returns exactly 0, but the vectorized
implementation returns the raw peak ratio 2, because its line
`peak2peak[flag is True] = 0` replaces nothing (`flag is True` is the
Python scalar `False`, selecting an empty slice).  Its own comment
`# replace invalid values` documents the intent the line fails to
implement. -/
theorem c7_flag_is_true_is_a_noop :
    s2nAt (sig2noise_ratio_loop c7CorrBatch .peak2peak 1) 0 = some 0 ∧
    s2nAt (vectorized_sig2noise c7CorrBatch .peak2peak 1) 0 = some 2 ∧
    vecS2nFlag c7CorrBatch 1 0 = true := by
  constructor
  · norm_num [s2nAt, sig2noise_ratio_loop, c7CorrBatch, find_first_peak,
      argmaxFlat, arrMaxVal, List.range_succ]
  constructor
  · norm_num [s2nAt, vectorized_sig2noise, c7CorrBatch, find_all_first_peaks,
      find_all_second_peaks, maskedBest, argmaxFlat, arrMaxVal, List.range_succ]
  · norm_num [vecS2nFlag, c7CorrBatch, find_all_first_peaks,
      find_all_second_peaks, maskedBest, argmaxFlat, arrMaxVal, List.range_succ]

/-!
## Errors of the correlation pipeline

Each constructor stands for one of the exceptions the Python code can
raise (including the crashes the code runs into past a slip: the
`UnboundLocalError` after an unknown correlation method is merely printed,
the `OverflowError`/`ZeroDivisionError` when a memory ceiling admits zero
windows per block, and the `ValueError` when the degenerate early return of
the displacement converter is unpacked into three names).
-/

inductive PivError
  | overlapTooLarge
  | searchTooSmall
  | windowTooLarge
  | extendedSearchNotImplemented
  | normalizedNotImplemented
  | linearNotImplemented
  | corrMethodNotImplemented
  | subpixMethodNotImplemented
  | schedulingOverflow
  | unpackMismatch
  | s2nNotImplemented
deriving DecidableEq

/-!
## Batched FFT correlation (`fft_correlate_images`, circular path)

The numpy/cupy FFT routines are external collaborators, embedded by their
documented semantics:

* `rfft2` = full complex DFT along the rows axis, real DFT along the
  columns axis keeping the `cols/2 + 1` non-negative-frequency
  coefficients;
* `irfft2` = inverse complex DFT along the rows axis and inverse real DFT
  along the columns axis, with the documented default output length
  `n = 2*(m-1)` where `m` is the input length of the last axis, the missing
  half-spectrum being reconstructed by Hermitian symmetry (the pipeline
  only ever feeds it Hermitian-consistent data — products of half-spectra
  of real arrays — where this reconstruction is exactly numpy's result);
* `fftshift` = `np.roll` by `shape // 2` along each of the last two axes.

All batched operations act on each window independently, so each is
defined through its single-window version applied at window `w`.
-/

noncomputable section FFT

/-- Forward DFT kernel `exp(-2 π i a / n)`. -/
def dftKernel (n : ℕ) (a : ℤ) : ℂ :=
  Complex.exp (-2 * Real.pi * Complex.I * a / n)

/-- Inverse DFT kernel `exp(2 π i a / n)`. -/
def invDftKernel (n : ℕ) (a : ℤ) : ℂ :=
  Complex.exp (2 * Real.pi * Complex.I * a / n)

/-- Single-window `rfft2` of a `rows × cols` real map:
coefficient `(u, k)` for `k < cols/2 + 1`. -/
def rfft2One (rows cols : ℕ) (f : ℕ → ℕ → ℝ) : ℕ → ℕ → ℂ :=
  fun u k => ∑ p ∈ Finset.range rows, ∑ q ∈ Finset.range cols,
    (f p q : ℂ) * dftKernel rows (u * p) * dftKernel cols (k * q)

/-- Hermitian extension of a half-spectrum with `m` stored column
coefficients to the full `nOut = 2*(m-1)` columns, as `irfft2` assumes. -/
def hermExt (rows m : ℕ) (g : ℕ → ℕ → ℂ) : ℕ → ℕ → ℂ :=
  fun u k =>
    if k < m then g u k
    else (starRingEnd ℂ) (g ((rows - u) % rows) (2 * (m - 1) - k))

/-- Single-window `irfft2` with numpy's default output length
`2*(m-1)` on the last axis. -/
def irfft2One (rows m : ℕ) (g : ℕ → ℕ → ℂ) : ℕ → ℕ → ℝ :=
  fun t s =>
    ((∑ u ∈ Finset.range rows, ∑ k ∈ Finset.range (2 * (m - 1)),
        hermExt rows m g u k * invDftKernel rows (u * t) *
          invDftKernel (2 * (m - 1)) (k * s)) /
      ((rows : ℂ) * (2 * (m - 1) : ℕ))).re

/-- Single-window `fftshift` over both axes: a roll by `dim // 2`. -/
def fftshiftOne (rows cols : ℕ) (f : ℕ → ℕ → ℝ) : ℕ → ℕ → ℝ :=
  fun p q => f ((p + rows - rows / 2) % rows) ((q + cols - cols / 2) % cols)

/-- Batched `rfft2` (applied to the last two axes, per window). -/
def rfft2Arr (X : Arr3 ℝ) : Arr3 ℂ :=
  ⟨X.n, X.rows, X.cols / 2 + 1, fun w => rfft2One X.rows X.cols (X.data w)⟩

/-- Elementwise complex conjugate, the embedding of `cp.conj`. -/
def conjArr (Z : Arr3 ℂ) : Arr3 ℂ :=
  ⟨Z.n, Z.rows, Z.cols, fun w u k => (starRingEnd ℂ) (Z.data w u k)⟩

/-- Elementwise product of two equally-shaped complex batches. -/
def mulArr (A B : Arr3 ℂ) : Arr3 ℂ :=
  ⟨A.n, A.rows, A.cols, fun w u k => A.data w u k * B.data w u k⟩

/-- Batched `irfft2` with numpy's default output shape. -/
def irfft2Arr (Z : Arr3 ℂ) : Arr3 ℝ :=
  ⟨Z.n, Z.rows, 2 * (Z.cols - 1), fun w => irfft2One Z.rows Z.cols (Z.data w)⟩

/-- Batched `fftshift` over the last two axes. -/
def fftshiftArr (X : Arr3 ℝ) : Arr3 ℝ :=
  ⟨X.n, X.rows, X.cols, fun w => fftshiftOne X.rows X.cols (X.data w)⟩

/-- Embedding of `fft_correlate_images` (source lines 682-771).  The
`normalized_correlation` branch raises before anything else; `linear`
raises `NotImplementedError`; an unknown method name prints a message,
leaves `corr` unbound and crashes at `return corr` — all modelled as
errors.  The circular path is
`fftshift(irfft2(conj(rfft2(a)) * rfft2(b)).real, axes=(-2,-1))`. -/
def fft_correlate_images (A B : Arr3 ℝ) (method : CorrMethod)
    (normalized : Bool) : Except PivError (Arr3 ℝ) :=
  if normalized then .error .normalizedNotImplemented
  else
    match method with
    | .linear => .error .linearNotImplemented
    | .circular => .ok (fftshiftArr (irfft2Arr (mulArr (conjArr (rfft2Arr A)) (rfft2Arr B))))
    | .unsupported => .error .corrMethodNotImplemented

/-- Circular correlation of a single window pair: the composition the
circular path of `fft_correlate_images` applies to window `w` of its
batches.  Used to state that correlation map `i` depends only on window
pair `i`. -/
def corrOne (rows cols : ℕ) (a b : ℕ → ℕ → ℝ) : ℕ → ℕ → ℝ :=
  fftshiftOne rows (2 * (cols / 2 + 1 - 1))
    (irfft2One rows (cols / 2 + 1)
      (fun u k => (starRingEnd ℂ) (rfft2One rows cols a u k) * rfft2One rows cols b u k))

end FFT

/-!
## Intensity normalisation (`normalize_intensity`)
-/

/-- Fold maximum of `g` over `List.range N` starting from `a`,
the building block of the embedded `max` reductions. -/
def foldMax {α : Type} [LinearOrder α] (N : ℕ) (g : ℕ → α) (a : α) : α :=
  (List.range N).foldl (fun m t => max m (g t)) a

/-- Maximum entry of a whole batch, embedding `window.max()` with no axis
argument (a single scalar over all windows). -/
noncomputable def batchMax (X : Arr3 ℝ) : ℝ :=
  foldMax (X.n * (X.rows * X.cols))
    (fun t => X.data (t / (X.rows * X.cols)) (t % (X.rows * X.cols) / X.cols)
      (t % (X.rows * X.cols) % X.cols))
    (X.data 0 0 0)

/-- Per-window mean of a batch, embedding
`window.mean(axis=(-2,-1), keepdims=True)`. -/
noncomputable def windowMean (X : Arr3 ℝ) (k : ℕ) : ℝ :=
  arrMean X.rows X.cols (X.data k)

/-- Per-window standard deviation (`ddof = 0`) of the mean-subtracted
batch, embedding `window.std(axis=(-2,-1), keepdims=True)`. -/
noncomputable def windowStd (X : Arr3 ℝ) (k : ℕ) : ℝ :=
  Real.sqrt (arrMean X.rows X.cols (fun p q =>
    ((X.data k p q - windowMean X k) -
      arrMean X.rows X.cols (fun p' q' => X.data k p' q' - windowMean X k)) ^ 2))

/-- Embedding of `normalize_intensity` (source lines 774-797): subtract the
per-window mean, divide by the per-window standard deviation through
`np.divide(..., out=np.zeros_like(window), where=(tmp != 0))` (zero where
the deviation is zero), and clip the result to `[0, window.max()]`, where
`window.max()` is the maximum over the whole batch. -/
noncomputable def normalize_intensity (X : Arr3 ℝ) : Arr3 ℝ :=
  let centered : Arr3 ℝ :=
    ⟨X.n, X.rows, X.cols, fun k p q => X.data k p q - windowMean X k⟩
  let divided : Arr3 ℝ :=
    ⟨X.n, X.rows, X.cols, fun k p q =>
      if windowStd X k = 0 then 0 else centered.data k p q / windowStd X k⟩
  ⟨X.n, X.rows, X.cols, fun k p q =>
    min (max (divided.data k p q) 0) (batchMax divided)⟩

/-- Modelled from the spec (§4.3): the per-window normaliser — subtract the
window's mean, divide by the window's standard deviation where nonzero
(else leave the value at zero), clip to `[0, that window's maximum]`. -/
noncomputable def normalizeWindowSpec (rows cols : ℕ) (w : ℕ → ℕ → ℝ) :
    ℕ → ℕ → ℝ :=
  let μ := arrMean rows cols w
  let σ := Real.sqrt (arrMean rows cols (fun p q =>
    ((w p q - μ) - arrMean rows cols (fun p' q' => w p' q' - μ)) ^ 2))
  let d : ℕ → ℕ → ℝ := fun p q => if σ = 0 then 0 else (w p q - μ) / σ
  let ownMax := foldMax (rows * cols) (fun t => d (t / cols) (t % cols)) (d 0 0)
  fun p q => min (max (d p q) 0) ownMax

/-!
### Fold-maximum lemmas and row-major index arithmetic
-/

section FoldMaxLemmas

variable {α : Type} [LinearOrder α]

theorem foldl_max_init_mono (l : List ℕ) (g : ℕ → α) :
    ∀ {a b : α}, a ≤ b →
      l.foldl (fun m t => max m (g t)) a ≤ l.foldl (fun m t => max m (g t)) b := by
  induction l with
  | nil => intro a b h; exact h
  | cons x l ih =>
      intro a b h
      exact ih (max_le_max h le_rfl)

theorem foldl_max_init_le (l : List ℕ) (g : ℕ → α) (a : α) :
    a ≤ l.foldl (fun m t => max m (g t)) a := by
  induction l generalizing a with
  | nil => exact le_rfl
  | cons x l ih =>
      exact le_trans (le_max_left a (g x)) (ih (max a (g x)))

theorem foldl_max_mem_le (l : List ℕ) (g : ℕ → α) (a : α) :
    ∀ t ∈ l, g t ≤ l.foldl (fun m t => max m (g t)) a := by
  induction l generalizing a with
  | nil => intro t ht; exact absurd ht (List.not_mem_nil t)
  | cons x l ih =>
      intro t ht
      rcases List.mem_cons.mp ht with h | h
      · subst h
        exact le_trans (le_max_right a (g t)) (foldl_max_init_le l g _)
      · exact ih (max a (g x)) t h

theorem foldl_max_attained (l : List ℕ) (g : ℕ → α) :
    ∀ a, l.foldl (fun m t => max m (g t)) a = a ∨
      ∃ t ∈ l, l.foldl (fun m t => max m (g t)) a = g t := by
  induction l with
  | nil => intro a; exact Or.inl rfl
  | cons x l ih =>
      intro a
      rcases ih (max a (g x)) with h | ⟨t, ht, h⟩
      · simp only [List.foldl_cons]
        rcases max_choice a (g x) with hm | hm
        · exact Or.inl (by rw [h, hm])
        · exact Or.inr ⟨x, List.mem_cons_self x l, by rw [h, hm]⟩
      · exact Or.inr ⟨t, List.mem_cons_of_mem x ht, h⟩

theorem le_foldMax (N : ℕ) (g : ℕ → α) (a : α) (t : ℕ) (ht : t < N) :
    g t ≤ foldMax N g a :=
  foldl_max_mem_le (List.range N) g a t (List.mem_range.mpr ht)

theorem init_le_foldMax (N : ℕ) (g : ℕ → α) (a : α) : a ≤ foldMax N g a :=
  foldl_max_init_le (List.range N) g a

theorem foldMax_attained (N : ℕ) (g : ℕ → α) (a : α) :
    foldMax N g a = a ∨ ∃ t, t < N ∧ foldMax N g a = g t := by
  rcases foldl_max_attained (List.range N) g a with h | ⟨t, ht, h⟩
  · exact Or.inl h
  · exact Or.inr ⟨t, List.mem_range.mp ht, h⟩

end FoldMaxLemmas

theorem flatten_lt {p q rows cols : ℕ} (hp : p < rows) (hq : q < cols) :
    p * cols + q < rows * cols :=
  calc p * cols + q < p * cols + cols := by omega
    _ = (p + 1) * cols := by ring
    _ ≤ rows * cols := Nat.mul_le_mul_right cols hp

theorem flatten_div {p q cols : ℕ} (hq : q < cols) :
    (p * cols + q) / cols = p := by
  rw [Nat.mul_comm, Nat.mul_add_div (by omega), Nat.div_eq_of_lt hq]
  omega

theorem flatten_mod {p q cols : ℕ} (hq : q < cols) :
    (p * cols + q) % cols = q := by
  rw [Nat.mul_comm, Nat.mul_add_mod, Nat.mod_eq_of_lt hq]

/-!
### C9: the normaliser is per-window
-/

theorem sum_centered_eq_zero (rows cols : ℕ) (hrows : 0 < rows)
    (hcols : 0 < cols) (w : ℕ → ℕ → ℝ) :
    (∑ p ∈ Finset.range rows, ∑ q ∈ Finset.range cols,
      (w p q - arrMean rows cols w)) = 0 := by
  have hcast : ((rows : ℝ) * cols) ≠ 0 := by positivity
  have hsplit : (∑ p ∈ Finset.range rows, ∑ q ∈ Finset.range cols,
      (w p q - arrMean rows cols w)) =
      (∑ p ∈ Finset.range rows, ∑ q ∈ Finset.range cols, w p q) -
        ((rows : ℝ) * cols) * arrMean rows cols w := by
    simp [Finset.sum_sub_distrib, Finset.sum_const, Finset.card_range,
      nsmul_eq_mul]
    ring
  rw [hsplit]
  unfold arrMean
  field_simp

/-- C9: the output of the intensity normaliser at window `k` depends only
on window `k`: it equals the per-window normaliser of spec §4.3 (mean
subtraction, guarded division by the window's standard deviation, clip to
`[0, that window's own maximum]`), even though the code clips against the
batch-wide `window.max()`. -/
theorem normalize_intensity_per_window (X : Arr3 ℝ)
    (hrows : 0 < X.rows) (hcols : 0 < X.cols)
    (k : ℕ) (hk : k < X.n) (p : ℕ) (hp : p < X.rows) (q : ℕ) (hq : q < X.cols) :
    (normalize_intensity X).data k p q =
      normalizeWindowSpec X.rows X.cols (X.data k) p q := by
  have hrc : 0 < X.rows * X.cols := Nat.mul_pos hrows hcols
  have hμ : arrMean X.rows X.cols (X.data k) = windowMean X k := rfl
  -- the guarded per-window division, shared by both sides
  have hd : ∃ d : ℕ → ℕ → ℝ, d = fun p' q' =>
      if windowStd X k = 0 then 0
      else (X.data k p' q' - windowMean X k) / windowStd X k := ⟨_, rfl⟩
  obtain ⟨d, hd⟩ := hd
  -- every in-range value of window k is bounded by the window's own maximum
  have hin : ∀ p' q', p' < X.rows → q' < X.cols →
      d p' q' ≤ foldMax (X.rows * X.cols)
        (fun t => d (t / X.cols) (t % X.cols)) (d 0 0) := by
    intro p' q' hp' hq'
    have h := le_foldMax (X.rows * X.cols)
      (fun t => d (t / X.cols) (t % X.cols)) (d 0 0)
      (p' * X.cols + q') (flatten_lt hp' hq')
    simpa [flatten_div hq', flatten_mod hq'] using h
  -- the window's own maximum is non-negative
  have hown0 : 0 ≤ foldMax (X.rows * X.cols)
      (fun t => d (t / X.cols) (t % X.cols)) (d 0 0) := by
    by_cases hσ : windowStd X k = 0
    · have hg : ∀ t, d (t / X.cols) (t % X.cols) = 0 := by
        intro t; simp [hd, hσ]
      have hinit : d 0 0 = 0 := by simp [hd, hσ]
      rcases foldMax_attained (X.rows * X.cols)
        (fun t => d (t / X.cols) (t % X.cols)) (d 0 0) with h | ⟨t, _, h⟩
      · rw [h, hinit]
      · rw [h, hg]
    · by_contra hneg
      push_neg at hneg
      have hall : ∀ p' q', p' < X.rows → q' < X.cols → d p' q' < 0 :=
        fun p' q' hp' hq' => lt_of_le_of_lt (hin p' q' hp' hq') hneg
      have hsum : (∑ p' ∈ Finset.range X.rows,
          ∑ q' ∈ Finset.range X.cols, d p' q') = 0 := by
        have hrow : ∀ p' ∈ Finset.range X.rows,
            (∑ q' ∈ Finset.range X.cols, d p' q') =
            (∑ q' ∈ Finset.range X.cols,
              (X.data k p' q' - windowMean X k)) / windowStd X k := by
          intro p' _
          rw [Finset.sum_div]
          refine Finset.sum_congr rfl (fun q' _ => ?_)
          simp [hd, hσ]
        rw [Finset.sum_congr rfl hrow, ← Finset.sum_div]
        have hz := sum_centered_eq_zero X.rows X.cols hrows hcols (X.data k)
        rw [hμ] at hz
        rw [hz, zero_div]
      have hneg' : (∑ p' ∈ Finset.range X.rows,
          ∑ q' ∈ Finset.range X.cols, d p' q') < 0 := by
        apply Finset.sum_neg
        · intro p' hp'
          apply Finset.sum_neg
          · intro q' hq'
            exact hall p' q' (Finset.mem_range.mp hp') (Finset.mem_range.mp hq')
          · exact ⟨0, Finset.mem_range.mpr hcols⟩
        · exact ⟨0, Finset.mem_range.mpr hrows⟩
      rw [hsum] at hneg'
      exact absurd hneg' (lt_irrefl 0)
  -- the batch-wide maximum dominates the window's own maximum
  have hentry : ∀ t, t < X.rows * X.cols → d (t / X.cols) (t % X.cols) ≤
      batchMax ⟨X.n, X.rows, X.cols, fun k' p' q' =>
        if windowStd X k' = 0 then 0
        else (X.data k' p' q' - windowMean X k') / windowStd X k'⟩ := by
    intro t ht
    have hflat : k * (X.rows * X.cols) + t < X.n * (X.rows * X.cols) := by
      calc k * (X.rows * X.cols) + t < k * (X.rows * X.cols) + X.rows * X.cols := by
            omega
        _ = (k + 1) * (X.rows * X.cols) := by ring
        _ ≤ X.n * (X.rows * X.cols) := Nat.mul_le_mul_right _ hk
    have h := le_foldMax (X.n * (X.rows * X.cols))
      (fun t' => (if windowStd X (t' / (X.rows * X.cols)) = 0 then (0 : ℝ)
        else (X.data (t' / (X.rows * X.cols)) (t' % (X.rows * X.cols) / X.cols)
            (t' % (X.rows * X.cols) % X.cols) -
          windowMean X (t' / (X.rows * X.cols))) /
            windowStd X (t' / (X.rows * X.cols))))
      ((if windowStd X 0 = 0 then (0 : ℝ)
        else (X.data 0 0 0 - windowMean X 0) / windowStd X 0))
      (k * (X.rows * X.cols) + t) hflat
    unfold batchMax
    simpa [flatten_div ht, flatten_mod ht, hd] using h
  have hbatch : foldMax (X.rows * X.cols)
      (fun t => d (t / X.cols) (t % X.cols)) (d 0 0) ≤
      batchMax ⟨X.n, X.rows, X.cols, fun k' p' q' =>
        if windowStd X k' = 0 then 0
        else (X.data k' p' q' - windowMean X k') / windowStd X k'⟩ := by
    rcases foldMax_attained (X.rows * X.cols)
      (fun t => d (t / X.cols) (t % X.cols)) (d 0 0) with h | ⟨t, ht, h⟩
    · rw [h]
      have h0 := hentry 0 hrc
      simpa using h0
    · rw [h]
      exact hentry t ht
  -- pointwise: both clips agree
  have hx : max (d p q) 0 ≤ foldMax (X.rows * X.cols)
      (fun t => d (t / X.cols) (t % X.cols)) (d 0 0) :=
    max_le (hin p q hp hq) hown0
  have hL : (normalize_intensity X).data k p q = min (max (d p q) 0)
      (batchMax ⟨X.n, X.rows, X.cols, fun k' p' q' =>
        if windowStd X k' = 0 then 0
        else (X.data k' p' q' - windowMean X k') / windowStd X k'⟩) := by
    rw [hd]; rfl
  have hR : normalizeWindowSpec X.rows X.cols (X.data k) p q =
      min (max (d p q) 0) (foldMax (X.rows * X.cols)
        (fun t => d (t / X.cols) (t % X.cols)) (d 0 0)) := by
    rw [hd]; rfl
  rw [hL, hR, min_eq_left (le_trans hx hbatch), min_eq_left hx]

/-- Concrete batch for the C9 witness. -/
noncomputable def c9Batch : Arr3 ℝ :=
  ⟨1, 2, 2, fun _ p q => (p : ℝ) + 2 * q⟩

/-- Witness for C9 at a concrete 1-window 2×2 batch. -/
theorem normalize_intensity_per_window_witness :
    (normalize_intensity c9Batch).data 0 1 0 =
      normalizeWindowSpec c9Batch.rows c9Batch.cols (c9Batch.data 0) 1 0 :=
  normalize_intensity_per_window c9Batch (by norm_num [c9Batch])
    (by norm_num [c9Batch]) 0 (by norm_num [c9Batch]) 1 (by norm_num [c9Batch])
    0 (by norm_num [c9Batch])

/-!
### C6: circular correlation shape and batch order
-/

/-- Concrete input for the C6 counterexample: a single 3×3 window pair
(odd column count). -/
noncomputable def c6OddBatch : Arr3 ℝ := ⟨1, 3, 3, fun _ _ _ => 0⟩

/-- C6 (counterexample): on a batch of 3×3 windows the circular path
returns 3×2 correlation maps, not 3×3 — `irfft2` with its default size
argument produces a last axis of length `2*(cols//2 + 1 - 1) = cols - 1`
when `cols` is odd, so the per-window output shape does not equal the input
window shape for odd window dimensions. -/
theorem fft_correlate_images_odd_cols_shrink :
    (fft_correlate_images c6OddBatch c6OddBatch .circular false).map Arr3.cols =
      Except.ok 2 ∧ c6OddBatch.cols = 3 :=
  ⟨rfl, rfl⟩

/-- C6 (amended): for even window column counts the circular path preserves
the batch length and the per-window shape, and correlation map `w` is the
single-pair circular correlation of window pair `w` alone (batch order is
preserved and no other window influences map `w`).  For odd column counts
the last axis shrinks to `cols - 1` instead. -/
theorem fft_correlate_images_even_shape_and_order (A B : Arr3 ℝ)
    (heven : A.cols % 2 = 0) (hbr : B.rows = A.rows) (hbc : B.cols = A.cols) :
    ∃ C, fft_correlate_images A B .circular false = .ok C ∧
      C.n = A.n ∧ C.rows = A.rows ∧ C.cols = A.cols ∧
      ∀ w p q, C.data w p q = corrOne A.rows A.cols (A.data w) (B.data w) p q := by
  refine ⟨fftshiftArr (irfft2Arr (mulArr (conjArr (rfft2Arr A)) (rfft2Arr B))),
    rfl, rfl, rfl, ?_, ?_⟩
  · dsimp only [fftshiftArr, irfft2Arr, mulArr, conjArr, rfft2Arr]
    omega
  · intro w p q
    dsimp only [fftshiftArr, irfft2Arr, mulArr, conjArr, rfft2Arr, corrOne]
    rw [hbr, hbc]

/-- Concrete even-dimension input for the C6 witness. -/
noncomputable def c6EvenBatch : Arr3 ℝ := ⟨2, 4, 4, fun _ p q => (p : ℝ) + q⟩

/-- Witness for C6 at a concrete 4×4 (even) batch. -/
theorem fft_correlate_images_even_shape_and_order_witness :
    ∃ C, fft_correlate_images c6EvenBatch c6EvenBatch .circular false = .ok C ∧
      C.n = c6EvenBatch.n ∧ C.rows = c6EvenBatch.rows ∧ C.cols = c6EvenBatch.cols ∧
      ∀ w p q, C.data w p q =
        corrOne c6EvenBatch.rows c6EvenBatch.cols
          (c6EvenBatch.data w) (c6EvenBatch.data w) p q :=
  fft_correlate_images_even_shape_and_order c6EvenBatch c6EvenBatch
    (by norm_num [c6EvenBatch]) rfl rfl

/-!
## Sub-pixel estimation (`find_subpixel_peak_position`)

Embedded over `ℝ` with `Real.log` for the gaussian fit.  The source adds
`eps = 1e-7` to the caller's map in place (`corr += eps`) on the non-border
branch only; both the estimate and the final state of the map are
returned.  The guarded `np.divide(..., out=np.zeros(1), where=(den != 0))`
of the gaussian branch returns 0 on a zero denominator, which is also the
convention of real division in this embedding.
-/

noncomputable section Subpixel

/-- The `eps = 1e-7` the source adds to correlation maps before sub-pixel
work, "prevents log(0) = nan". -/
def epsDefault : ℝ := 1 / 10000000

/-- Gaussian-to-parabolic fallback test of the single-window path (source
line 454): any of the five stencil samples strictly negative. -/
def gaussianFallsBackSingle (c cl cr cd cu : ℝ) : Prop :=
  c < 0 ∨ cl < 0 ∨ cr < 0 ∨ cd < 0 ∨ cu < 0

/-- Gaussian-to-parabolic fallback test of the batched path (source lines
1228-1232): any of the five stencil samples less than or equal to 0. -/
def gaussianFallsBackBatched (c cl cr cd cu : ℝ) : Prop :=
  c ≤ 0 ∨ cl ≤ 0 ∨ cr ≤ 0 ∨ cd ≤ 0 ∨ cu ≤ 0

noncomputable instance (c cl cr cd cu : ℝ) :
    Decidable (gaussianFallsBackSingle c cl cr cd cu) := by
  unfold gaussianFallsBackSingle; infer_instance

noncomputable instance (c cl cr cd cu : ℝ) :
    Decidable (gaussianFallsBackBatched c cl cr cd cu) := by
  unfold gaussianFallsBackBatched; infer_instance

/-- Stencil sample `c` of the single-window estimator: the map at its
first peak, after the `corr += eps` of the non-border branch. -/
def spC (rows cols : ℕ) (f : ℕ → ℕ → ℝ) : ℝ :=
  f (find_first_peak rows cols f).1.1 (find_first_peak rows cols f).1.2 + epsDefault

/-- Stencil sample `cl = corr[peak1_i - 1, peak1_j]` (single-window). -/
def spCl (rows cols : ℕ) (f : ℕ → ℕ → ℝ) : ℝ :=
  f ((find_first_peak rows cols f).1.1 - 1) (find_first_peak rows cols f).1.2 + epsDefault

/-- Stencil sample `cr = corr[peak1_i + 1, peak1_j]` (single-window). -/
def spCr (rows cols : ℕ) (f : ℕ → ℕ → ℝ) : ℝ :=
  f ((find_first_peak rows cols f).1.1 + 1) (find_first_peak rows cols f).1.2 + epsDefault

/-- Stencil sample `cd = corr[peak1_i, peak1_j - 1]` (single-window). -/
def spCd (rows cols : ℕ) (f : ℕ → ℕ → ℝ) : ℝ :=
  f (find_first_peak rows cols f).1.1 ((find_first_peak rows cols f).1.2 - 1) + epsDefault

/-- Stencil sample `cu = corr[peak1_i, peak1_j + 1]` (single-window). -/
def spCu (rows cols : ℕ) (f : ℕ → ℕ → ℝ) : ℝ :=
  f (find_first_peak rows cols f).1.1 ((find_first_peak rows cols f).1.2 + 1) + epsDefault

/-- The sub-pixel method the single-window estimator actually applies after
its fallback test (`subpixel_method = "parabolic"` reassignment at source
lines 453-456), given a non-border peak. -/
def effectiveSingleMethod (rows cols : ℕ) (f : ℕ → ℕ → ℝ)
    (method : SubpixMethod) : SubpixMethod :=
  if method = .gaussian ∧ gaussianFallsBackSingle (spC rows cols f)
      (spCl rows cols f) (spCr rows cols f) (spCd rows cols f) (spCu rows cols f)
  then .parabolic else method

/-- Embedding of `find_subpixel_peak_position` (source lines 391-486).
Returns the sub-pixel `(row, col)` estimate — `none` models the
`(np.nan, np.nan)` pair returned when the first peak touches a border —
together with the final state of the caller's map: unchanged on the
method-check and border branches, `corr + eps` otherwise. -/
def find_subpixel_peak_position (rows cols : ℕ) (f : ℕ → ℕ → ℝ)
    (method : SubpixMethod) :
    Except PivError (Option (ℝ × ℝ)) × (ℕ → ℕ → ℝ) :=
  if method = .unsupported then (.error .subpixMethodNotImplemented, f)
  else
    let i := (find_first_peak rows cols f).1.1
    let j := (find_first_peak rows cols f).1.2
    if i = 0 ∨ i = rows - 1 ∨ j = 0 ∨ j = cols - 1 then (.ok none, f)
    else
      let g : ℕ → ℕ → ℝ := fun p q => f p q + epsDefault
      let c := g i j
      let cl := g (i - 1) j
      let cr := g (i + 1) j
      let cd := g i (j - 1)
      let cu := g i (j + 1)
      match effectiveSingleMethod rows cols f method with
      | .centroid =>
          (.ok (some (
            (((i : ℝ) - 1) * cl + (i : ℝ) * c + ((i : ℝ) + 1) * cr) / (cl + c + cr),
            (((j : ℝ) - 1) * cd + (j : ℝ) * c + ((j : ℝ) + 1) * cu) / (cd + c + cu))), g)
      | .gaussian =>
          (.ok (some (
            (i : ℝ) + (Real.log cl - Real.log cr) /
              (2 * Real.log cl - 4 * Real.log c + 2 * Real.log cr),
            (j : ℝ) + (Real.log cd - Real.log cu) /
              (2 * Real.log cd - 4 * Real.log c + 2 * Real.log cu))), g)
      | .parabolic =>
          (.ok (some (
            (i : ℝ) + (cl - cr) / (2 * cl - 4 * c + 2 * cr),
            (j : ℝ) + (cd - cu) / (2 * cd - 4 * c + 2 * cu))), g)
      | .unsupported => (.ok none, g)

end Subpixel

/-- C4: for each of the three sub-pixel methods, when the integer first
peak lies on any border row or column of the correlation map the estimator
returns the NaN pair without touching the map (no neighbour is read and
the `corr += eps` mutation of the non-border branch does not happen). -/
theorem find_subpixel_peak_position_border_nan (rows cols : ℕ)
    (f : ℕ → ℕ → ℝ) (method : SubpixMethod) (hm : method ≠ .unsupported)
    (hb : (find_first_peak rows cols f).1.1 = 0 ∨
      (find_first_peak rows cols f).1.1 = rows - 1 ∨
      (find_first_peak rows cols f).1.2 = 0 ∨
      (find_first_peak rows cols f).1.2 = cols - 1) :
    find_subpixel_peak_position rows cols f method = (.ok none, f) := by
  unfold find_subpixel_peak_position
  rw [if_neg hm, if_pos hb]

/-- Concrete border-peak map for the C4 witness: a constant 3×3 map has its
first peak at the corner `(0, 0)`. -/
noncomputable def c4BorderMap : ℕ → ℕ → ℝ := fun _ _ => 3

/-- Witness for C4: at a constant 3×3 map (peak `(0,0)`, a border corner)
the gaussian estimator returns the NaN pair and the unchanged map. -/
theorem find_subpixel_peak_position_border_nan_witness :
    find_subpixel_peak_position 3 3 c4BorderMap .gaussian = (.ok none, c4BorderMap) :=
  find_subpixel_peak_position_border_nan 3 3 c4BorderMap .gaussian
    (by decide)
    (Or.inl (by
      show argmaxFlat 3 3 c4BorderMap / 3 = 0
      rw [show c4BorderMap = fun _ _ => (3 : ℝ) from rfl, argmaxFlat_const]))

/-!
## Batched displacement conversion
(`vectorized_correlation_to_displacements`)

The components are named so that theorems can speak about them: the peak
positions after `corr += eps`, the four border-violation index lists whose
concatenation is `invalid` (a window can appear twice — row and column
violations are collected separately), the centre-replaced peaks, the five
stencil samples (with Python wrap-around indexing for the `peaks - 1`
reads), and the per-method shifts.
-/

/-- Python-style wrap-around indexing of an axis of length `n`
(`corr[..., i - 1, ...]` with `i = 0` reads the last row). -/
def pyIdx (z : ℤ) (n : ℕ) : ℕ := (z % (n : ℤ)).toNat

/-- Result of the displacement converter: `degenerate n` models the early
`return np.zeros((n, 2))*np.nan` (a single array in place of the
documented `(u, v, count)` triple), `flat` the unshaped return and `grid`
the `(n_rows, n_cols)`-reshaped return. -/
inductive VecDispOut
  | degenerate (n : ℕ)
  | flat (u v : ℕ → Option ℝ) (count : ℕ)
  | grid (u v : ℕ → ℕ → Option ℝ) (count : ℕ)

/-- Row-major reshape of a flat optional array to an `nr × nc` grid. -/
def reshapeGrid (nr nc : ℕ) (u : ℕ → Option ℝ) : ℕ → ℕ → Option ℝ :=
  fun r q => if r < nr ∧ q < nc then u (r * nc + q) else none

/-- The state of the correlation batch after the in-place `corr += eps`
(source line 1198). -/
noncomputable def epsShift (X : Arr3 ℝ) : Arr3 ℝ :=
  ⟨X.n, X.rows, X.cols, fun k p q => X.data k p q + epsDefault⟩

/-- Row index of the first peak of window `k` (after `corr += eps`). -/
noncomputable def vdPeakI (Y : Arr3 ℝ) (k : ℕ) : ℕ := ((find_all_first_peaks Y).1 k).1

/-- Column index of the first peak of window `k` (after `corr += eps`). -/
noncomputable def vdPeakJ (Y : Arr3 ℝ) (k : ℕ) : ℕ := ((find_all_first_peaks Y).1 k).2

/-- The `invalid` index list (source lines 1205-1208) with `mask_width = 1`:
the four `cp.where` results concatenated, so a window violating a row and a
column condition is counted twice. -/
noncomputable def vdInvalidList (Y : Arr3 ℝ) : List ℕ :=
  ((List.range Y.n).filter fun k => decide ((vdPeakI Y k : ℤ) < 1)) ++
  ((List.range Y.n).filter fun k => decide ((Y.rows : ℤ) - 1 - 1 < (vdPeakI Y k : ℤ))) ++
  ((List.range Y.n).filter fun k => decide ((vdPeakJ Y k : ℤ) < 1 - 0)) ++
  ((List.range Y.n).filter fun k => decide ((Y.cols : ℤ) - 1 - 1 < (vdPeakJ Y k : ℤ)))

/-- Peak row after the centre replacement
`peaks1_i[invalid] = corr.shape[1] // 2`. -/
noncomputable def vdPeakI' (Y : Arr3 ℝ) (k : ℕ) : ℕ :=
  if k ∈ vdInvalidList Y then Y.rows / 2 else vdPeakI Y k

/-- Peak column after the centre replacement
`peaks1_j[invalid] = corr.shape[2] // 2`. -/
noncomputable def vdPeakJ' (Y : Arr3 ℝ) (k : ℕ) : ℕ :=
  if k ∈ vdInvalidList Y then Y.cols / 2 else vdPeakJ Y k

/-- Stencil sample `c = corr[ind, peaks1_i, peaks1_j]`. -/
noncomputable def vdC (Y : Arr3 ℝ) (k : ℕ) : ℝ := Y.data k (vdPeakI' Y k) (vdPeakJ' Y k)

/-- Stencil sample `cl = corr[ind, peaks1_i - 1, peaks1_j]`. -/
noncomputable def vdCl (Y : Arr3 ℝ) (k : ℕ) : ℝ :=
  Y.data k (pyIdx ((vdPeakI' Y k : ℤ) - 1) Y.rows) (vdPeakJ' Y k)

/-- Stencil sample `cr = corr[ind, peaks1_i + 1, peaks1_j]`. -/
noncomputable def vdCr (Y : Arr3 ℝ) (k : ℕ) : ℝ :=
  Y.data k (pyIdx ((vdPeakI' Y k : ℤ) + 1) Y.rows) (vdPeakJ' Y k)

/-- Stencil sample `cd = corr[ind, peaks1_i, peaks1_j - 1]`. -/
noncomputable def vdCd (Y : Arr3 ℝ) (k : ℕ) : ℝ :=
  Y.data k (vdPeakI' Y k) (pyIdx ((vdPeakJ' Y k : ℤ) - 1) Y.cols)

/-- Stencil sample `cu = corr[ind, peaks1_i, peaks1_j + 1]`. -/
noncomputable def vdCu (Y : Arr3 ℝ) (k : ℕ) : ℝ :=
  Y.data k (vdPeakI' Y k) (pyIdx ((vdPeakJ' Y k : ℤ) + 1) Y.cols)

/-- Membership of window `k` in the `inv` list of the batched gaussian
branch (source lines 1228-1232): any stencil sample `≤ 0`. -/
noncomputable def vdGaussInv (Y : Arr3 ℝ) (k : ℕ) : Prop :=
  gaussianFallsBackBatched (vdC Y k) (vdCl Y k) (vdCr Y k) (vdCd Y k) (vdCu Y k)

noncomputable instance (Y : Arr3 ℝ) (k : ℕ) : Decidable (vdGaussInv Y k) := by
  unfold vdGaussInv; infer_instance

/-- Row shift of window `k` for the selected method: centroid absolute
position, gaussian with the per-window parabolic overwrite at `inv`
indices, parabolic.  (The plain `nom1 / den1` of the gaussian branch is a
float division; a zero denominator yields 0 here where numpy would produce
a non-finite value — no theorem below rests on that case.) -/
noncomputable def vdShiftI (Y : Arr3 ℝ) (method : SubpixMethod) (k : ℕ) : ℝ :=
  match method with
  | .centroid =>
      (((vdPeakI' Y k : ℝ) - 1) * vdCl Y k + (vdPeakI' Y k : ℝ) * vdC Y k +
        ((vdPeakI' Y k : ℝ) + 1) * vdCr Y k) / (vdCl Y k + vdC Y k + vdCr Y k)
  | .gaussian =>
      if vdGaussInv Y k then
        (vdCl Y k - vdCr Y k) / (2 * vdCl Y k - 4 * vdC Y k + 2 * vdCr Y k)
      else
        (Real.log (vdCl Y k) - Real.log (vdCr Y k)) /
          (2 * Real.log (vdCl Y k) - 4 * Real.log (vdC Y k) + 2 * Real.log (vdCr Y k))
  | .parabolic =>
      (vdCl Y k - vdCr Y k) / (2 * vdCl Y k - 4 * vdC Y k + 2 * vdCr Y k)
  | .unsupported => 0

/-- Column shift of window `k` for the selected method. -/
noncomputable def vdShiftJ (Y : Arr3 ℝ) (method : SubpixMethod) (k : ℕ) : ℝ :=
  match method with
  | .centroid =>
      (((vdPeakJ' Y k : ℝ) - 1) * vdCd Y k + (vdPeakJ' Y k : ℝ) * vdC Y k +
        ((vdPeakJ' Y k : ℝ) + 1) * vdCu Y k) / (vdCd Y k + vdC Y k + vdCu Y k)
  | .gaussian =>
      if vdGaussInv Y k then
        (vdCd Y k - vdCu Y k) / (2 * vdCd Y k - 4 * vdC Y k + 2 * vdCu Y k)
      else
        (Real.log (vdCd Y k) - Real.log (vdCu Y k)) /
          (2 * Real.log (vdCd Y k) - 4 * Real.log (vdC Y k) + 2 * Real.log (vdCu Y k))
  | .parabolic =>
      (vdCd Y k - vdCu Y k) / (2 * vdCd Y k - 4 * vdC Y k + 2 * vdCu Y k)
  | .unsupported => 0

/-- Row-axis displacement `disp_vy` of window `k` (before the NaN
masking): `peaks1_i + shift_i - floor(corr.shape[1]/2)`, or for centroid
`shift_i - floor(corr.shape[1]/2)` since the centroid shift is already an
absolute position. -/
noncomputable def vdDispVy (Y : Arr3 ℝ) (method : SubpixMethod) (k : ℕ) : ℝ :=
  if method = .centroid then vdShiftI Y method k - ((Y.rows / 2 : ℕ) : ℝ)
  else (vdPeakI' Y k : ℝ) + vdShiftI Y method k - ((Y.rows / 2 : ℕ) : ℝ)

/-- Column-axis displacement `disp_vx` of window `k` (before the NaN
masking). -/
noncomputable def vdDispVx (Y : Arr3 ℝ) (method : SubpixMethod) (k : ℕ) : ℝ :=
  if method = .centroid then vdShiftJ Y method k - ((Y.cols / 2 : ℕ) : ℝ)
  else (vdPeakJ' Y k : ℝ) + vdShiftJ Y method k - ((Y.cols / 2 : ℕ) : ℝ)

/-- Embedding of `vectorized_correlation_to_displacements` (source lines
1166-1284).  The method name is validated first (before the mutation);
`corr += eps` then updates the caller's array, returned as the final
state; `mask_width = 1` for all three supported methods; when the length
of the duplicate-counting `invalid` list equals the window count the
function returns the bare NaN array `np.zeros((n, 2))*np.nan`
(`degenerate`) instead of a `(u, v, count)` triple; otherwise invalid
windows get NaN displacements and the returned count is `len(invalid)`. -/
noncomputable def vectorized_correlation_to_displacements (X : Arr3 ℝ)
    (nRows nCols : Option ℕ) (method : SubpixMethod) :
    Except PivError VecDispOut × Arr3 ℝ :=
  if method = .unsupported then (.error .subpixMethodNotImplemented, X)
  else
    let Y : Arr3 ℝ := epsShift X
    if (vdInvalidList Y).length = X.n then (.ok (.degenerate X.n), Y)
    else
      let u : ℕ → Option ℝ := fun k =>
        if k ∈ vdInvalidList Y then none else some (vdDispVx Y method k)
      let v : ℕ → Option ℝ := fun k =>
        if k ∈ vdInvalidList Y then none else some (vdDispVy Y method k)
      match nRows, nCols with
      | some nr, some nc =>
          (.ok (.grid (reshapeGrid nr nc u) (reshapeGrid nr nc v)
            (vdInvalidList Y).length), Y)
      | some _, none => (.ok (.flat u v (vdInvalidList Y).length), Y)
      | none, some _ => (.ok (.flat u v (vdInvalidList Y).length), Y)
      | none, none => (.ok (.flat u v (vdInvalidList Y).length), Y)

/-!
### Helper lemmas for evaluating the displacement converter
-/

theorem vecDisp_state (X : Arr3 ℝ) (nr nc : Option ℕ) (m : SubpixMethod)
    (hm : m ≠ .unsupported) :
    (vectorized_correlation_to_displacements X nr nc m).2 = epsShift X := by
  simp only [vectorized_correlation_to_displacements]
  rw [if_neg hm]
  by_cases h : (vdInvalidList (epsShift X)).length = X.n
  · rw [if_pos h]
  · rw [if_neg h]
    cases nr <;> cases nc <;> rfl

theorem vecDisp_degenerate_case (X : Arr3 ℝ) (nr nc : Option ℕ)
    (m : SubpixMethod) (hm : m ≠ .unsupported)
    (hlen : (vdInvalidList (epsShift X)).length = X.n) :
    vectorized_correlation_to_displacements X nr nc m =
      (.ok (.degenerate X.n), epsShift X) := by
  simp only [vectorized_correlation_to_displacements]
  rw [if_neg hm, if_pos hlen]

theorem vdPeak_of_const (Y : Arr3 ℝ) (k : ℕ) (x : ℝ)
    (h : Y.data k = fun _ _ => x) :
    vdPeakI Y k = 0 ∧ vdPeakJ Y k = 0 := by
  unfold vdPeakI vdPeakJ find_all_first_peaks
  simp [h, argmaxFlat_const]

theorem vdPeak_of_strict (Y : Arr3 ℝ) (k i j : ℕ)
    (hi : i < Y.rows) (hj : j < Y.cols)
    (hmax : ∀ p q, p < Y.rows → q < Y.cols → ¬(p = i ∧ q = j) →
      Y.data k p q < Y.data k i j) :
    vdPeakI Y k = i ∧ vdPeakJ Y k = j := by
  unfold vdPeakI vdPeakJ find_all_first_peaks
  dsimp only
  rw [argmaxFlat_strict Y.rows Y.cols (Y.data k) i j hi hj hmax]
  exact ⟨flatten_div hj, flatten_mod hj⟩

/-- One-window 3×3 batch wrapping a single map. -/
noncomputable def batchOf (m : ℕ → ℕ → ℝ) : Arr3 ℝ := ⟨1, 3, 3, fun _ p q => m p q⟩

/-- Evaluation of the displacement converter's internals on a one-window
3×3 batch with a strict interior peak at `(1, 1)`. -/
theorem vd_stencil_batchOf (m : ℕ → ℕ → ℝ)
    (hmax : ∀ p q, p < 3 → q < 3 → ¬(p = 1 ∧ q = 1) → m p q < m 1 1) :
    vdInvalidList (epsShift (batchOf m)) = [] ∧
    vdC (epsShift (batchOf m)) 0 = m 1 1 + epsDefault ∧
    vdCl (epsShift (batchOf m)) 0 = m 0 1 + epsDefault ∧
    vdCr (epsShift (batchOf m)) 0 = m 2 1 + epsDefault ∧
    vdCd (epsShift (batchOf m)) 0 = m 1 0 + epsDefault ∧
    vdCu (epsShift (batchOf m)) 0 = m 1 2 + epsDefault := by
  have hpk : vdPeakI (epsShift (batchOf m)) 0 = 1 ∧ vdPeakJ (epsShift (batchOf m)) 0 = 1 := by
    refine vdPeak_of_strict _ 0 1 1 (by norm_num [epsShift, batchOf])
      (by norm_num [epsShift, batchOf]) ?_
    intro p q hp hq hne
    have hp3 : p < 3 := hp
    have hq3 : q < 3 := hq
    have := hmax p q hp3 hq3 hne
    show m p q + epsDefault < m 1 1 + epsDefault
    linarith
  have hIL : vdInvalidList (epsShift (batchOf m)) = [] := by
    unfold vdInvalidList
    rw [show (epsShift (batchOf m)).n = 1 from rfl]
    rw [show List.range 1 = [0] from rfl]
    norm_num [hpk.1, hpk.2, List.filter,
      show (epsShift (batchOf m)).rows = 3 from rfl,
      show (epsShift (batchOf m)).cols = 3 from rfl]
  have hI' : vdPeakI' (epsShift (batchOf m)) 0 = 1 := by
    unfold vdPeakI'
    rw [hIL]
    simp [hpk.1]
  have hJ' : vdPeakJ' (epsShift (batchOf m)) 0 = 1 := by
    unfold vdPeakJ'
    rw [hIL]
    simp [hpk.2]
  refine ⟨hIL, ?_, ?_, ?_, ?_, ?_⟩
  · unfold vdC; rw [hI', hJ']; rfl
  · unfold vdCl; rw [hI', hJ']; rfl
  · unfold vdCr; rw [hI', hJ']; rfl
  · unfold vdCd; rw [hI', hJ']; rfl
  · unfold vdCu; rw [hI', hJ']; rfl

/-!
### C5: gaussian-to-parabolic fallback tests
-/

/-- Map for the C5 counterexample: strict interior peak at `(1, 1)` whose
upper neighbour is exactly `-eps`, so that after `corr += eps` the stencil
sample `cl` is exactly 0 — `≤ 0` but not `< 0`. -/
noncomputable def c5ZeroMap : ℕ → ℕ → ℝ := fun p q =>
  if p = 1 ∧ q = 1 then 1 else if p = 0 ∧ q = 1 then -epsDefault else 0

theorem c5ZeroMap_strict :
    ∀ p q, p < 3 → q < 3 → ¬(p = 1 ∧ q = 1) → c5ZeroMap p q < c5ZeroMap 1 1 := by
  intro p q hp hq hne
  have h11 : c5ZeroMap 1 1 = 1 := by norm_num [c5ZeroMap]
  rw [h11]
  show (if p = 1 ∧ q = 1 then (1 : ℝ) else if p = 0 ∧ q = 1 then -epsDefault else 0) < 1
  rw [if_neg hne]
  by_cases h01 : p = 0 ∧ q = 1
  · rw [if_pos h01]
    norm_num [epsDefault]
  · rw [if_neg h01]
    norm_num

/-- C5 (counterexample): the two fallback tests are not the same.  On
`c5ZeroMap`, window 0 of the batched path has its `cl` stencil sample
exactly 0 and joins the `inv` set that is rewritten with the parabolic
fit, but the single-window path's test `np.any(... < 0)` does not fire and
the estimator keeps the gaussian fit (evaluating `log 0`) — so a `≤ 0`
sample does not make the single-window estimator apply the parabolic fit. -/
theorem c5_fallback_tests_differ :
    effectiveSingleMethod 3 3 c5ZeroMap .gaussian = .gaussian ∧
    vdGaussInv (epsShift (batchOf c5ZeroMap)) 0 ∧
    vdCl (epsShift (batchOf c5ZeroMap)) 0 = 0 := by
  obtain ⟨hIL, hC, hCl, hCr, hCd, hCu⟩ := vd_stencil_batchOf c5ZeroMap c5ZeroMap_strict
  have hpk : (find_first_peak 3 3 c5ZeroMap).1.1 = 1 ∧
      (find_first_peak 3 3 c5ZeroMap).1.2 = 1 := by
    unfold find_first_peak
    rw [argmaxFlat_strict 3 3 c5ZeroMap 1 1 (by norm_num) (by norm_num) c5ZeroMap_strict]
    exact ⟨rfl, rfl⟩
  have hcl0 : vdCl (epsShift (batchOf c5ZeroMap)) 0 = 0 := by
    rw [hCl]
    norm_num [c5ZeroMap]
  refine ⟨?_, ?_, hcl0⟩
  · unfold effectiveSingleMethod
    rw [if_neg ?_]
    rintro ⟨-, hfb⟩
    unfold gaussianFallsBackSingle at hfb
    unfold spC spCl spCr spCd spCu at hfb
    rw [hpk.1, hpk.2] at hfb
    norm_num [c5ZeroMap, epsDefault] at hfb
  · unfold vdGaussInv gaussianFallsBackBatched
    exact Or.inr (Or.inl (le_of_eq hcl0))

/-- C5 (amended): the batched path replaces the gaussian fit with the
parabolic fit per window whenever any stencil sample is `≤ 0`; the
single-window path does so only when some sample is `< 0` (a sample equal
to 0 keeps the gaussian fit there).  Under its own test, each path's
gaussian estimate coincides with the parabolic one. -/
theorem c5_gaussian_falls_back_to_parabolic (rows cols : ℕ) (f : ℕ → ℕ → ℝ)
    (X : Arr3 ℝ) (k : ℕ)
    (hneg : gaussianFallsBackSingle (spC rows cols f) (spCl rows cols f)
      (spCr rows cols f) (spCd rows cols f) (spCu rows cols f))
    (hinv : vdGaussInv (epsShift X) k) :
    find_subpixel_peak_position rows cols f .gaussian =
      find_subpixel_peak_position rows cols f .parabolic ∧
    vdShiftI (epsShift X) .gaussian k = vdShiftI (epsShift X) .parabolic k ∧
    vdShiftJ (epsShift X) .gaussian k = vdShiftJ (epsShift X) .parabolic k := by
  have hEffG : effectiveSingleMethod rows cols f .gaussian = .parabolic := by
    unfold effectiveSingleMethod
    rw [if_pos ⟨rfl, hneg⟩]
  have hEffP : effectiveSingleMethod rows cols f .parabolic = .parabolic := by
    unfold effectiveSingleMethod
    rw [if_neg (by rintro ⟨h, -⟩; exact absurd h (by decide))]
  refine ⟨?_, ?_, ?_⟩
  · unfold find_subpixel_peak_position
    rw [if_neg (show ¬(SubpixMethod.gaussian = SubpixMethod.unsupported) by decide),
      if_neg (show ¬(SubpixMethod.parabolic = SubpixMethod.unsupported) by decide)]
    by_cases hb : ((find_first_peak rows cols f).1.1 = 0 ∨
        (find_first_peak rows cols f).1.1 = rows - 1 ∨
        (find_first_peak rows cols f).1.2 = 0 ∨
        (find_first_peak rows cols f).1.2 = cols - 1)
    · rw [if_pos hb, if_pos hb]
    · rw [if_neg hb, if_neg hb, hEffG, hEffP]
  · unfold vdShiftI
    rw [if_pos hinv]
  · unfold vdShiftJ
    rw [if_pos hinv]

/-- Map for the C5 witness: strict interior peak at `(1, 1)` with a truly
negative neighbour. -/
noncomputable def c5NegMap : ℕ → ℕ → ℝ := fun p q =>
  if p = 1 ∧ q = 1 then 5 else if p = 0 ∧ q = 1 then -1 else 0

theorem c5NegMap_strict :
    ∀ p q, p < 3 → q < 3 → ¬(p = 1 ∧ q = 1) → c5NegMap p q < c5NegMap 1 1 := by
  intro p q hp hq hne
  have h11 : c5NegMap 1 1 = 5 := by norm_num [c5NegMap]
  rw [h11]
  show (if p = 1 ∧ q = 1 then (5 : ℝ) else if p = 0 ∧ q = 1 then -1 else 0) < 5
  rw [if_neg hne]
  by_cases h01 : p = 0 ∧ q = 1
  · rw [if_pos h01]; norm_num
  · rw [if_neg h01]; norm_num

/-- Witness for the amended C5 at a map with a negative stencil sample. -/
theorem c5_gaussian_falls_back_to_parabolic_witness :
    find_subpixel_peak_position 3 3 c5NegMap .gaussian =
      find_subpixel_peak_position 3 3 c5NegMap .parabolic ∧
    vdShiftI (epsShift (batchOf c5NegMap)) .gaussian 0 =
      vdShiftI (epsShift (batchOf c5NegMap)) .parabolic 0 ∧
    vdShiftJ (epsShift (batchOf c5NegMap)) .gaussian 0 =
      vdShiftJ (epsShift (batchOf c5NegMap)) .parabolic 0 := by
  obtain ⟨hIL, hC, hCl, hCr, hCd, hCu⟩ := vd_stencil_batchOf c5NegMap c5NegMap_strict
  have hpk : (find_first_peak 3 3 c5NegMap).1.1 = 1 ∧
      (find_first_peak 3 3 c5NegMap).1.2 = 1 := by
    unfold find_first_peak
    rw [argmaxFlat_strict 3 3 c5NegMap 1 1 (by norm_num) (by norm_num) c5NegMap_strict]
    exact ⟨rfl, rfl⟩
  refine c5_gaussian_falls_back_to_parabolic 3 3 c5NegMap (batchOf c5NegMap) 0 ?_ ?_
  · unfold gaussianFallsBackSingle spC spCl spCr spCd spCu
    rw [hpk.1, hpk.2]
    refine Or.inr (Or.inl ?_)
    norm_num [c5NegMap, epsDefault]
  · unfold vdGaussInv gaussianFallsBackBatched
    refine Or.inr (Or.inl ?_)
    rw [hCl]
    norm_num [c5NegMap, epsDefault]

/-!
### C1: the degenerate early return of the displacement converter
-/

/-- Failing input for C1: two 3×3 correlation maps; window 0 is constant
(first peak at the corner `(0, 0)`, violating both the row and the column
border condition), window 1 has a strict interior peak at `(1, 1)`. -/
noncomputable def c1Batch : Arr3 ℝ :=
  ⟨2, 3, 3, fun k p q => if k = 0 then 0 else if p = 1 ∧ q = 1 then 5 else 0⟩

/-- C1 (code bug): window 0's corner peak enters the `invalid` list twice
(row and column conditions are collected separately), so `len(invalid)`
equals the window count even though window 1's peak `(1, 1)` is interior;
the converter takes the `len(invalid) == corr.shape[0]` early return and
yields the bare NaN array — no `(u, v, count)` triple and no displacement
formula for the valid window 1 (the caller's triple unpacking would
raise). -/
theorem c1_duplicate_invalid_degenerate :
    (vectorized_correlation_to_displacements c1Batch none none .gaussian).1 =
      .ok (.degenerate 2) ∧
    vdPeakI (epsShift c1Batch) 1 = 1 ∧ vdPeakJ (epsShift c1Batch) 1 = 1 ∧
    vdInvalidList (epsShift c1Batch) = [0, 0] := by
  have hpk0 : vdPeakI (epsShift c1Batch) 0 = 0 ∧ vdPeakJ (epsShift c1Batch) 0 = 0 := by
    refine vdPeak_of_const _ 0 ((0 : ℝ) + epsDefault) ?_
    funext p q
    simp [epsShift, c1Batch]
  have hpk1 : vdPeakI (epsShift c1Batch) 1 = 1 ∧ vdPeakJ (epsShift c1Batch) 1 = 1 := by
    refine vdPeak_of_strict _ 1 1 1 (by norm_num [epsShift, c1Batch])
      (by norm_num [epsShift, c1Batch]) ?_
    intro p q hp hq hne
    show (epsShift c1Batch).data 1 p q < (epsShift c1Batch).data 1 1 1
    have h1 : (epsShift c1Batch).data 1 1 1 = 5 + epsDefault := by
      norm_num [epsShift, c1Batch]
    have h2 : (epsShift c1Batch).data 1 p q =
        (if p = 1 ∧ q = 1 then (5 : ℝ) else 0) + epsDefault := by
      norm_num [epsShift, c1Batch]
    rw [h1, h2, if_neg hne]
    norm_num
  have hIL : vdInvalidList (epsShift c1Batch) = [0, 0] := by
    unfold vdInvalidList
    rw [show (epsShift c1Batch).n = 2 from rfl]
    rw [show List.range 2 = [0, 1] from rfl]
    norm_num [hpk0.1, hpk0.2, hpk1.1, hpk1.2, List.filter,
      show (epsShift c1Batch).rows = 3 from rfl,
      show (epsShift c1Batch).cols = 3 from rfl]
  refine ⟨?_, hpk1.1, hpk1.2, hIL⟩
  rw [vecDisp_degenerate_case c1Batch none none .gaussian (by decide)
    (by rw [hIL]; rfl)]
  rfl

/-!
### C10: which operations mutate the caller's correlation data
-/

/-- Concrete batch for the C10 counterexample. -/
noncomputable def c10Batch : Arr3 ℝ := ⟨1, 3, 3, fun _ _ _ => 0⟩

/-- C10 (counterexample): the displacement converter mutates the caller's
correlation batch — `corr += eps` raises entry `(0,0,0)` from 0 to `1e-7`,
so after the call the correlation data is not element-for-element
unchanged. -/
theorem c10_displacement_mutates_caller :
    (vectorized_correlation_to_displacements c10Batch none none .parabolic).2.data 0 0 0 ≠
      c10Batch.data 0 0 0 := by
  rw [vecDisp_state c10Batch none none .parabolic (by decide)]
  show c10Batch.data 0 0 0 + epsDefault ≠ c10Batch.data 0 0 0
  norm_num [c10Batch, epsDefault]

/-- C10 (amended): the peak finders (including the masked second-peak
searches, which write only the mask of a view) leave the caller's data
unchanged, and so does the sub-pixel estimator when it rejects the method
name or returns at the border; but the sub-pixel estimator on a non-border
peak and the displacement converter (always, past its method check) return
the caller's array with `eps = 1e-7` added in place. -/
theorem mutation_profile_of_correlation_consumers (X : Arr3 ℝ)
    (rows cols : ℕ) (f : ℕ → ℕ → ℝ) (i j width : ℕ)
    (method : SubpixMethod) (nr nc : Option ℕ) (hm : method ≠ .unsupported) :
    (find_second_peak rows cols f i j width).2 = f ∧
    (find_all_second_peaks X width).2 = X ∧
    (vectorized_correlation_to_displacements X nr nc method).2 = epsShift X ∧
    (find_subpixel_peak_position rows cols f .unsupported).2 = f ∧
    (((find_first_peak rows cols f).1.1 = 0 ∨
        (find_first_peak rows cols f).1.1 = rows - 1 ∨
        (find_first_peak rows cols f).1.2 = 0 ∨
        (find_first_peak rows cols f).1.2 = cols - 1) →
      (find_subpixel_peak_position rows cols f method).2 = f) ∧
    (¬ ((find_first_peak rows cols f).1.1 = 0 ∨
        (find_first_peak rows cols f).1.1 = rows - 1 ∨
        (find_first_peak rows cols f).1.2 = 0 ∨
        (find_first_peak rows cols f).1.2 = cols - 1) →
      (find_subpixel_peak_position rows cols f method).2 =
        fun p q => f p q + epsDefault) := by
  refine ⟨?_, rfl, vecDisp_state X nr nc method hm, ?_, ?_, ?_⟩
  · unfold find_second_peak
    dsimp only
    rcases maskedBest rows cols f _ with _ | ⟨t, v⟩
    · rfl
    · rfl
  · unfold find_subpixel_peak_position
    rw [if_pos rfl]
  · intro hb
    unfold find_subpixel_peak_position
    rw [if_neg hm, if_pos hb]
  · intro hb
    unfold find_subpixel_peak_position
    rw [if_neg hm, if_neg hb]
    rcases effectiveSingleMethod rows cols f method with _ | _ | _ | _ <;> rfl

/-- Witness for the amended C10 at concrete inputs. -/
theorem mutation_profile_witness :
    (find_second_peak 3 3 c4BorderMap 1 1 1).2 = c4BorderMap ∧
    (find_all_second_peaks c10Batch 2).2 = c10Batch ∧
    (vectorized_correlation_to_displacements c10Batch (some 1) (some 1) .gaussian).2 =
      epsShift c10Batch ∧
    (find_subpixel_peak_position 3 3 c4BorderMap .unsupported).2 = c4BorderMap ∧
    (((find_first_peak 3 3 c4BorderMap).1.1 = 0 ∨
        (find_first_peak 3 3 c4BorderMap).1.1 = 3 - 1 ∨
        (find_first_peak 3 3 c4BorderMap).1.2 = 0 ∨
        (find_first_peak 3 3 c4BorderMap).1.2 = 3 - 1) →
      (find_subpixel_peak_position 3 3 c4BorderMap .gaussian).2 = c4BorderMap) ∧
    (¬ ((find_first_peak 3 3 c4BorderMap).1.1 = 0 ∨
        (find_first_peak 3 3 c4BorderMap).1.1 = 3 - 1 ∨
        (find_first_peak 3 3 c4BorderMap).1.2 = 0 ∨
        (find_first_peak 3 3 c4BorderMap).1.2 = 3 - 1) →
      (find_subpixel_peak_position 3 3 c4BorderMap .gaussian).2 =
        fun p q => c4BorderMap p q + epsDefault) :=
  mutation_profile_of_correlation_consumers c10Batch 3 3 c4BorderMap 1 1 1
    .gaussian (some 1) (some 1) (by decide)

/-!
### Zero-map evaluation lemmas for the FFT stack
-/

theorem rfft2One_zeroFn (rows cols : ℕ) (f : ℕ → ℕ → ℝ)
    (h : ∀ p q, f p q = 0) (u k : ℕ) : rfft2One rows cols f u k = 0 := by
  unfold rfft2One
  simp [h]

theorem hermExt_zeroFn (rows m : ℕ) (g : ℕ → ℕ → ℂ)
    (h : ∀ u k, g u k = 0) (u k : ℕ) : hermExt rows m g u k = 0 := by
  unfold hermExt
  by_cases hk : k < m
  · rw [if_pos hk, h]
  · rw [if_neg hk, h, map_zero]

theorem irfft2One_zeroFn (rows m : ℕ) (g : ℕ → ℕ → ℂ)
    (h : ∀ u k, g u k = 0) (t s : ℕ) : irfft2One rows m g t s = 0 := by
  unfold irfft2One
  have hz : ∀ u ∈ Finset.range rows, ∀ k ∈ Finset.range (2 * (m - 1)),
      hermExt rows m g u k * invDftKernel rows (u * t) *
        invDftKernel (2 * (m - 1)) (k * s) = 0 := by
    intro u _ k _
    rw [hermExt_zeroFn rows m g h, zero_mul, zero_mul]
  rw [Finset.sum_congr rfl (fun u hu => Finset.sum_congr rfl (hz u hu))]
  simp

theorem corrOne_zeroLeft (rows cols : ℕ) (a b : ℕ → ℕ → ℝ)
    (ha : ∀ p q, a p q = 0) (p q : ℕ) : corrOne rows cols a b p q = 0 := by
  unfold corrOne fftshiftOne
  apply irfft2One_zeroFn
  intro u k
  rw [rfft2One_zeroFn rows cols a ha, map_zero, zero_mul]

theorem vecDisp_grid_case (X : Arr3 ℝ) (nr nc : ℕ) (m : SubpixMethod)
    (hm : m ≠ .unsupported)
    (hnd : (vdInvalidList (epsShift X)).length ≠ X.n) :
    (vectorized_correlation_to_displacements X (some nr) (some nc) m).1 =
      .ok (.grid
        (reshapeGrid nr nc (fun k =>
          if k ∈ vdInvalidList (epsShift X) then none
          else some (vdDispVx (epsShift X) m k)))
        (reshapeGrid nr nc (fun k =>
          if k ∈ vdInvalidList (epsShift X) then none
          else some (vdDispVy (epsShift X) m k)))
        (vdInvalidList (epsShift X)).length) := by
  simp only [vectorized_correlation_to_displacements]
  rw [if_neg hm, if_neg hnd]

theorem vecDisp_flat_case (X : Arr3 ℝ) (m : SubpixMethod)
    (hm : m ≠ .unsupported)
    (hnd : (vdInvalidList (epsShift X)).length ≠ X.n) :
    (vectorized_correlation_to_displacements X none none m).1 =
      .ok (.flat
        (fun k => if k ∈ vdInvalidList (epsShift X) then none
          else some (vdDispVx (epsShift X) m k))
        (fun k => if k ∈ vdInvalidList (epsShift X) then none
          else some (vdDispVy (epsShift X) m k))
        (vdInvalidList (epsShift X)).length) := by
  simp only [vectorized_correlation_to_displacements]
  rw [if_neg hm, if_neg hnd]

/-!
## Window extraction (`get_coordinates` / `sliding_window_array`)

`sliding_window_array` builds, through `get_rect_coordinates` with
`center_on_field=False`, the per-axis centre coordinate
`idx * (size - overlap) + size/2.0`, subtracts `size // 2` and truncates to
int (the operand is non-negative, so truncation is the floor), flattens the
meshgrid row-major (window `t` has row index `t / n_cols` and column index
`t % n_cols`), optionally slices a contiguous block `[bs:be]` of the
flattened coordinates with Python clipping, and gathers
`image[win_y, win_x]`.
-/

/-- Left pixel coordinate of the window with per-axis index `idx`:
`int(idx*(size-overlap) + size/2.0 - size//2)`. -/
def xLeft (size overlap : ℕ) (idx : ℕ) : ℤ :=
  ⌊(idx : ℚ) * ((size : ℚ) - (overlap : ℚ)) + (size : ℚ) / 2 - ((size / 2 : ℕ) : ℚ)⌋

/-- Field shape as natural numbers, as the pipeline consumes
`n_rows, n_cols = get_field_shape(...)`. -/
def fieldShapeNat (image_size search_area_size overlap : ℕ × ℕ) : ℕ × ℕ :=
  ((get_field_shape image_size search_area_size overlap).1.toNat,
   (get_field_shape image_size search_area_size overlap).2.toNat)

/-- Embedding of `sliding_window_array` (source lines 186-221). -/
noncomputable def sliding_window_array (image : ℕ → ℕ → ℝ) (imShape : ℕ × ℕ)
    (window_size overlap : ℕ × ℕ) (block_range : Option (ℕ × ℕ)) : Arr3 ℝ :=
  let nC := (fieldShapeNat imShape window_size overlap).2
  let N := (fieldShapeNat imShape window_size overlap).1 * nC
  let bs := match block_range with
    | none => 0
    | some br => min br.1 N
  let be := match block_range with
    | none => N
    | some br => min br.2 N
  ⟨be - bs, window_size.1, window_size.2, fun k p q =>
    image ((xLeft window_size.1 overlap.1 ((bs + k) / nC)).toNat + p)
          ((xLeft window_size.2 overlap.2 ((bs + k) % nC)).toNat + q)⟩

/-- The correlation batch the pipeline's circular path computes from both
frames for the given block range. -/
noncomputable def pipeCorr (fa fb : ℕ → ℕ → ℝ) (imShape ws ov : ℕ × ℕ)
    (br : Option (ℕ × ℕ)) : Arr3 ℝ :=
  fftshiftArr (irfft2Arr (mulArr
    (conjArr (rfft2Arr (sliding_window_array fa imShape ws ov br)))
    (rfft2Arr (sliding_window_array fb imShape ws ov br))))

/-!
## The correlation pipeline (`extended_search_area_piv`)

The pipeline returns, next to the `Except` result, a trace of the array
work performed before returning or failing (`extracted` = the sliding
windows of both frames were built, `correlated` = the batched FFT
correlation was computed, `displaced` = the displacement conversion ran):
the embedding of "reported immediately, before any partial computation".
-/

/-- Units of array-processing work, recorded in order. -/
inductive Ev
  | extracted
  | correlated
  | displaced
deriving DecidableEq

/-- The `(u, v, sig2noise)` output of the pipeline plus the aggregate
bad-peak count the pipeline prints. -/
structure PivOutput where
  u : ℕ → ℕ → Option ℝ
  v : ℕ → ℕ → Option ℝ
  s2n : ℕ → ℕ → Option ℝ
  nRows : ℕ
  nCols : ℕ
  totalBad : ℕ

/-- Block-path accumulator: the pre-allocated flat
`u, v = np.zeros(n_rows*n_cols), np.zeros(...)` and the running
`total_bad`. -/
structure BlockAcc where
  u : ℕ → Option ℝ
  v : ℕ → Option ℝ
  bad : ℕ

/-- The test `num_areas > (max_array_size / (window_size[0] * window_size[1]))`
entering the block-scheduled path (exact rational division in place of the
float true division). -/
def blockTriggered (max_array_size : Option ℕ) (window_size : ℕ × ℕ)
    (num_areas : ℕ) : Bool :=
  match max_array_size with
  | some m => decide ((m : ℚ) / ((window_size.1 : ℚ) * (window_size.2 : ℚ)) < (num_areas : ℚ))
  | none => false

/-- One iteration of the block loop (source lines 1104-1129): extract the
block's windows from both frames, correlate, convert to displacements, and
write the flat results into `u[block_start:block_end]`,
`v[block_start:block_end]`, accumulating `total_bad`.  An exception inside
an iteration aborts the loop with the trace so far; the degenerate early
return of the converter makes the triple unpacking raise (`ValueError`),
modelled as `unpackMismatch`. -/
noncomputable def blockStep (frameA frameB : ℕ → ℕ → ℝ) (imShape : ℕ × ℕ)
    (sa overlap : ℕ × ℕ) (correlation_method : CorrMethod)
    (normalized_correlation : Bool) (subpixel_method : SubpixMethod)
    (N apb : ℕ) (st : Except PivError BlockAcc × List Ev) (i : ℕ) :
    Except PivError BlockAcc × List Ev :=
  match st with
  | (.error e, tr) => (.error e, tr)
  | (.ok acc, tr) =>
      let bs := i * apb
      let be := (i + 1) * apb
      let aa := sliding_window_array frameA imShape sa overlap (some (bs, be))
      let bb := sliding_window_array frameB imShape sa overlap (some (bs, be))
      let tr1 := tr ++ [Ev.extracted]
      match fft_correlate_images aa bb correlation_method normalized_correlation with
      | .error e => (.error e, tr1)
      | .ok corr =>
          let tr2 := tr1 ++ [Ev.correlated]
          match (vectorized_correlation_to_displacements corr none none subpixel_method).1 with
          | .error e => (.error e, tr2)
          | .ok (.degenerate _) => (.error .unpackMismatch, tr2)
          | .ok (.grid _ _ _) => (.error .unpackMismatch, tr2)
          | .ok (.flat ub vb cnt) =>
              (.ok ⟨fun k => if bs ≤ k ∧ k < min be N then ub (k - bs) else acc.u k,
                    fun k => if bs ≤ k ∧ k < min be N then vb (k - bs) else acc.v k,
                    acc.bad + cnt⟩, tr2 ++ [Ev.displaced])

/-- Common tail of the pipeline (source lines 1149-1164): any non-`None`
`sig2noise_method` raises `NotImplementedError`; otherwise the
signal-to-noise grid is `np.zeros_like(u)*np.nan` and the displacement
grids are divided entrywise by `dt`. -/
noncomputable def finishPiv (nR nC : ℕ) (u v : ℕ → ℕ → Option ℝ) (cnt : ℕ)
    (dt : ℝ) (sig2noise_method : Option S2nMethod) (tr : List Ev) :
    Except PivError PivOutput × List Ev :=
  match sig2noise_method with
  | some _ => (.error .s2nNotImplemented, tr)
  | none =>
      (.ok ⟨fun r q => (u r q).map (· / dt), fun r q => (v r q).map (· / dt),
            fun _ _ => none, nR, nC, cnt⟩, tr)

/-- Embedding of `extended_search_area_piv` (source lines 923-1164).

Validation order is the source's: overlap vs window size, search size vs
window size, the (transposed) window-vs-image check
`window_size[1] > frame_a.shape[0] or window_size[0] > frame_a.shape[1]`,
and the Python tuple comparison `search_area_size > window_size`
(lexicographic) raising `NotImplementedError`.  When the memory test
triggers the block path with `areas_per_block = max_array_size // area_size`
equal to 0, `int(np.ceil(num_areas / 0))` raises (modelled
`schedulingOverflow`).  Integer window/overlap arguments are already
normalised to pairs by the caller. -/
noncomputable def extended_search_area_piv (frameA frameB : ℕ → ℕ → ℝ)
    (imShape : ℕ × ℕ) (window_size overlap : ℕ × ℕ) (dt : ℝ)
    (search_area_size : Option (ℕ × ℕ)) (correlation_method : CorrMethod)
    (subpixel_method : SubpixMethod) (sig2noise_method : Option S2nMethod)
    (width : ℕ) (normalized_correlation : Bool) (max_array_size : Option ℕ) :
    Except PivError PivOutput × List Ev :=
  let sa := search_area_size.getD window_size
  if window_size.1 ≤ overlap.1 ∨ window_size.2 ≤ overlap.2 then
    (.error .overlapTooLarge, [])
  else if sa.1 < window_size.1 ∨ sa.2 < window_size.2 then
    (.error .searchTooSmall, [])
  else if imShape.1 < window_size.2 ∨ imShape.2 < window_size.1 then
    (.error .windowTooLarge, [])
  else if window_size.1 < sa.1 ∨ (sa.1 = window_size.1 ∧ window_size.2 < sa.2) then
    (.error .extendedSearchNotImplemented, [])
  else
    let nR := (fieldShapeNat imShape sa overlap).1
    let nC := (fieldShapeNat imShape sa overlap).2
    let N := nR * nC
    if blockTriggered max_array_size window_size N then
      let areaSize := sa.1 * sa.2
      let apb := (max_array_size.getD 0) / areaSize
      if apb = 0 then (.error .schedulingOverflow, [])
      else
        let nb := (N + apb - 1) / apb
        match (List.range nb).foldl
            (blockStep frameA frameB imShape sa overlap correlation_method
              normalized_correlation subpixel_method N apb)
            (.ok ⟨fun _ => some 0, fun _ => some 0, 0⟩, []) with
        | (.error e, tr) => (.error e, tr)
        | (.ok acc, tr) =>
            finishPiv nR nC (reshapeGrid nR nC acc.u) (reshapeGrid nR nC acc.v)
              acc.bad dt sig2noise_method tr
    else
      let aa := sliding_window_array frameA imShape sa overlap none
      let bb := sliding_window_array frameB imShape sa overlap none
      match fft_correlate_images aa bb correlation_method normalized_correlation with
      | .error e => (.error e, [Ev.extracted])
      | .ok corr =>
          match (vectorized_correlation_to_displacements corr (some nR) (some nC)
              subpixel_method).1 with
          | .error e => (.error e, [Ev.extracted, Ev.correlated])
          | .ok (.degenerate _) => (.error .unpackMismatch, [Ev.extracted, Ev.correlated])
          | .ok (.flat _ _ _) => (.error .unpackMismatch, [Ev.extracted, Ev.correlated])
          | .ok (.grid ug vg cnt) =>
              finishPiv nR nC ug vg cnt dt sig2noise_method
                [Ev.extracted, Ev.correlated, Ev.displaced]

/-!
### C8: when configuration errors are raised
-/

/-- The all-zero frame used by the concrete pipeline evaluations. -/
noncomputable def zeroFrame : ℕ → ℕ → ℝ := fun _ _ => 0

/-- C8 (counterexample): an unsupported sub-pixel method name is not
rejected before computation — with otherwise valid configuration the
pipeline extracts the windows of both frames and computes the full batched
correlation before the method name check inside the displacement converter
raises. -/
theorem c8_subpix_method_checked_after_correlation :
    extended_search_area_piv zeroFrame zeroFrame (8, 8) (4, 4) (0, 0) 1
      none .circular .unsupported none 2 false none =
      (.error .subpixMethodNotImplemented, [Ev.extracted, Ev.correlated]) := by
  rfl

/-- C8 (amended): the geometric configuration errors (overlap at least the
window size; search area smaller than the window; the source's transposed
window-versus-image check) abort immediately with no array work performed,
in the source's validation order; but the method-name errors are not
checked up front: an unsupported sub-pixel method name raises only inside
the displacement converter, after window extraction and the batched
correlation have already been computed; an unsupported correlation method
name aborts only after the windows of both frames have been extracted; and
a non-`None` sig2noise method raises its `NotImplementedError` only after
extraction, correlation and displacement conversion have all run. -/
theorem config_error_timing (frameA frameB : ℕ → ℕ → ℝ) (imShape : ℕ × ℕ)
    (window_size overlap : ℕ × ℕ) (dt : ℝ) (search_area_size : Option (ℕ × ℕ))
    (cm : CorrMethod) (sm : SubpixMethod) (s2n : Option S2nMethod)
    (width : ℕ) (nc : Bool) (mas : Option ℕ) :
    (window_size.1 ≤ overlap.1 ∨ window_size.2 ≤ overlap.2 →
      extended_search_area_piv frameA frameB imShape window_size overlap dt
        search_area_size cm sm s2n width nc mas = (.error .overlapTooLarge, [])) ∧
    (¬ (window_size.1 ≤ overlap.1 ∨ window_size.2 ≤ overlap.2) →
      ((search_area_size.getD window_size).1 < window_size.1 ∨
        (search_area_size.getD window_size).2 < window_size.2) →
      extended_search_area_piv frameA frameB imShape window_size overlap dt
        search_area_size cm sm s2n width nc mas = (.error .searchTooSmall, [])) ∧
    (¬ (window_size.1 ≤ overlap.1 ∨ window_size.2 ≤ overlap.2) →
      ¬ ((search_area_size.getD window_size).1 < window_size.1 ∨
        (search_area_size.getD window_size).2 < window_size.2) →
      (imShape.1 < window_size.2 ∨ imShape.2 < window_size.1) →
      extended_search_area_piv frameA frameB imShape window_size overlap dt
        search_area_size cm sm s2n width nc mas = (.error .windowTooLarge, [])) ∧
    (overlap.1 < window_size.1 → overlap.2 < window_size.2 →
      window_size.2 ≤ imShape.1 → window_size.1 ≤ imShape.2 →
      extended_search_area_piv frameA frameB imShape window_size overlap dt
        none .circular .unsupported s2n width false none =
        (.error .subpixMethodNotImplemented, [Ev.extracted, Ev.correlated])) ∧
    (overlap.1 < window_size.1 → overlap.2 < window_size.2 →
      window_size.2 ≤ imShape.1 → window_size.1 ≤ imShape.2 →
      extended_search_area_piv frameA frameB imShape window_size overlap dt
        none .unsupported sm s2n width false none =
        (.error .corrMethodNotImplemented, [Ev.extracted])) ∧
    (overlap.1 < window_size.1 → overlap.2 < window_size.2 →
      window_size.2 ≤ imShape.1 → window_size.1 ≤ imShape.2 →
      sm ≠ .unsupported →
      (vdInvalidList (epsShift (pipeCorr frameA frameB imShape window_size
          overlap none))).length ≠
        (pipeCorr frameA frameB imShape window_size overlap none).n →
      ∀ s : S2nMethod,
      extended_search_area_piv frameA frameB imShape window_size overlap dt
        none .circular sm (some s) width false none =
        (.error .s2nNotImplemented,
          [Ev.extracted, Ev.correlated, Ev.displaced])) := by
  refine ⟨?_, ?_, ?_, ?_, ?_, ?_⟩
  · intro h
    simp only [extended_search_area_piv]
    rw [if_pos h]
  · intro h1 h2
    simp only [extended_search_area_piv]
    rw [if_neg h1, if_pos h2]
  · intro h1 h2 h3
    simp only [extended_search_area_piv]
    rw [if_neg h1, if_neg h2, if_pos h3]
  · intro ho1 ho2 hi1 hi2
    simp only [extended_search_area_piv, Option.getD_none]
    rw [if_neg (by omega), if_neg (by omega), if_neg (by omega),
      if_neg (by omega)]
    rw [show blockTriggered none window_size
        ((fieldShapeNat imShape window_size overlap).1 *
          (fieldShapeNat imShape window_size overlap).2) = false from rfl]
    rw [if_neg (by simp)]
    rfl
  · intro ho1 ho2 hi1 hi2
    simp only [extended_search_area_piv, Option.getD_none]
    rw [if_neg (by omega), if_neg (by omega), if_neg (by omega),
      if_neg (by omega)]
    rw [show blockTriggered none window_size
        ((fieldShapeNat imShape window_size overlap).1 *
          (fieldShapeNat imShape window_size overlap).2) = false from rfl]
    rw [if_neg (by simp)]
    rfl
  · intro ho1 ho2 hi1 hi2 hsm hnd s
    simp only [extended_search_area_piv, Option.getD_none]
    rw [if_neg (by omega), if_neg (by omega), if_neg (by omega),
      if_neg (by omega)]
    rw [show blockTriggered none window_size
        ((fieldShapeNat imShape window_size overlap).1 *
          (fieldShapeNat imShape window_size overlap).2) = false from rfl]
    rw [if_neg (by simp)]
    rw [show fft_correlate_images
        (sliding_window_array frameA imShape window_size overlap none)
        (sliding_window_array frameB imShape window_size overlap none)
        .circular false =
      Except.ok (pipeCorr frameA frameB imShape window_size overlap none) from rfl]
    dsimp only
    rw [vecDisp_grid_case (pipeCorr frameA frameB imShape window_size overlap none)
      _ _ sm hsm hnd]
    dsimp only
    rfl

/-!
### Per-window structure of the displacement converter

Everything the converter computes for window `k` depends only on the shape
and on window `k`'s map: the lemmas below factor each internal quantity
through the one-window batch `oneWin`.
-/

/-- One-window batch carrying map `w` with the given shape. -/
noncomputable def oneWin (rows cols : ℕ) (w : ℕ → ℕ → ℝ) : Arr3 ℝ :=
  ⟨1, rows, cols, fun _ => w⟩

theorem mem_vdInvalidList (Y : Arr3 ℝ) (j : ℕ) (hj : j < Y.n) :
    (j ∈ vdInvalidList Y) ↔
      ((vdPeakI Y j : ℤ) < 1 ∨ (Y.rows : ℤ) - 1 - 1 < (vdPeakI Y j : ℤ) ∨
        (vdPeakJ Y j : ℤ) < 1 - 0 ∨ (Y.cols : ℤ) - 1 - 1 < (vdPeakJ Y j : ℤ)) := by
  unfold vdInvalidList
  simp [List.mem_append, List.mem_filter, List.mem_range, hj, or_assoc]

theorem vdPeakI_one (Y : Arr3 ℝ) (k : ℕ) :
    vdPeakI (oneWin Y.rows Y.cols (Y.data k)) 0 = vdPeakI Y k := rfl

theorem vdPeakJ_one (Y : Arr3 ℝ) (k : ℕ) :
    vdPeakJ (oneWin Y.rows Y.cols (Y.data k)) 0 = vdPeakJ Y k := rfl

theorem mem_vdInvalidList_one (Y : Arr3 ℝ) (k : ℕ) (hk : k < Y.n) :
    (k ∈ vdInvalidList Y) ↔ (0 ∈ vdInvalidList (oneWin Y.rows Y.cols (Y.data k))) := by
  rw [mem_vdInvalidList Y k hk,
    mem_vdInvalidList (oneWin Y.rows Y.cols (Y.data k)) 0 (by norm_num [oneWin])]
  exact Iff.rfl

theorem vdPeakI'_one (Y : Arr3 ℝ) (k : ℕ) (hk : k < Y.n) :
    vdPeakI' (oneWin Y.rows Y.cols (Y.data k)) 0 = vdPeakI' Y k := by
  unfold vdPeakI'
  exact if_congr (mem_vdInvalidList_one Y k hk).symm rfl rfl

theorem vdPeakJ'_one (Y : Arr3 ℝ) (k : ℕ) (hk : k < Y.n) :
    vdPeakJ' (oneWin Y.rows Y.cols (Y.data k)) 0 = vdPeakJ' Y k := by
  unfold vdPeakJ'
  exact if_congr (mem_vdInvalidList_one Y k hk).symm rfl rfl

theorem vdC_one (Y : Arr3 ℝ) (k : ℕ) (hk : k < Y.n) :
    vdC (oneWin Y.rows Y.cols (Y.data k)) 0 = vdC Y k := by
  unfold vdC
  rw [vdPeakI'_one Y k hk, vdPeakJ'_one Y k hk]
  rfl

theorem vdCl_one (Y : Arr3 ℝ) (k : ℕ) (hk : k < Y.n) :
    vdCl (oneWin Y.rows Y.cols (Y.data k)) 0 = vdCl Y k := by
  unfold vdCl
  rw [vdPeakI'_one Y k hk, vdPeakJ'_one Y k hk]
  rfl

theorem vdCr_one (Y : Arr3 ℝ) (k : ℕ) (hk : k < Y.n) :
    vdCr (oneWin Y.rows Y.cols (Y.data k)) 0 = vdCr Y k := by
  unfold vdCr
  rw [vdPeakI'_one Y k hk, vdPeakJ'_one Y k hk]
  rfl

theorem vdCd_one (Y : Arr3 ℝ) (k : ℕ) (hk : k < Y.n) :
    vdCd (oneWin Y.rows Y.cols (Y.data k)) 0 = vdCd Y k := by
  unfold vdCd
  rw [vdPeakI'_one Y k hk, vdPeakJ'_one Y k hk]
  rfl

theorem vdCu_one (Y : Arr3 ℝ) (k : ℕ) (hk : k < Y.n) :
    vdCu (oneWin Y.rows Y.cols (Y.data k)) 0 = vdCu Y k := by
  unfold vdCu
  rw [vdPeakI'_one Y k hk, vdPeakJ'_one Y k hk]
  rfl

theorem vdGaussInv_one (Y : Arr3 ℝ) (k : ℕ) (hk : k < Y.n) :
    vdGaussInv (oneWin Y.rows Y.cols (Y.data k)) 0 ↔ vdGaussInv Y k := by
  unfold vdGaussInv
  rw [vdC_one Y k hk, vdCl_one Y k hk, vdCr_one Y k hk, vdCd_one Y k hk,
    vdCu_one Y k hk]

theorem vdShiftI_one (Y : Arr3 ℝ) (m : SubpixMethod) (k : ℕ) (hk : k < Y.n) :
    vdShiftI (oneWin Y.rows Y.cols (Y.data k)) m 0 = vdShiftI Y m k := by
  unfold vdShiftI
  cases m
  · rw [vdC_one Y k hk, vdCl_one Y k hk, vdCr_one Y k hk]
    exact if_congr (vdGaussInv_one Y k hk) rfl rfl
  · rw [vdC_one Y k hk, vdCl_one Y k hk, vdCr_one Y k hk, vdPeakI'_one Y k hk]
  · rw [vdC_one Y k hk, vdCl_one Y k hk, vdCr_one Y k hk]
  · rfl

theorem vdShiftJ_one (Y : Arr3 ℝ) (m : SubpixMethod) (k : ℕ) (hk : k < Y.n) :
    vdShiftJ (oneWin Y.rows Y.cols (Y.data k)) m 0 = vdShiftJ Y m k := by
  unfold vdShiftJ
  cases m
  · rw [vdC_one Y k hk, vdCd_one Y k hk, vdCu_one Y k hk]
    exact if_congr (vdGaussInv_one Y k hk) rfl rfl
  · rw [vdC_one Y k hk, vdCd_one Y k hk, vdCu_one Y k hk, vdPeakJ'_one Y k hk]
  · rw [vdC_one Y k hk, vdCd_one Y k hk, vdCu_one Y k hk]
  · rfl

theorem vdDispVx_one (Y : Arr3 ℝ) (m : SubpixMethod) (k : ℕ) (hk : k < Y.n) :
    vdDispVx (oneWin Y.rows Y.cols (Y.data k)) m 0 = vdDispVx Y m k := by
  unfold vdDispVx
  rw [vdShiftJ_one Y m k hk, vdPeakJ'_one Y k hk,
    show (oneWin Y.rows Y.cols (Y.data k)).cols = Y.cols from rfl]

theorem vdDispVy_one (Y : Arr3 ℝ) (m : SubpixMethod) (k : ℕ) (hk : k < Y.n) :
    vdDispVy (oneWin Y.rows Y.cols (Y.data k)) m 0 = vdDispVy Y m k := by
  unfold vdDispVy
  rw [vdShiftI_one Y m k hk, vdPeakI'_one Y k hk,
    show (oneWin Y.rows Y.cols (Y.data k)).rows = Y.rows from rfl]

/-- Per-window bad-peak tally: how many of the four border conditions
window `k`'s first peak violates (0, 1 or 2). -/
noncomputable def windowBadCount (Y : Arr3 ℝ) (k : ℕ) : ℕ :=
  (if (vdPeakI Y k : ℤ) < 1 then 1 else 0) +
  (if (Y.rows : ℤ) - 1 - 1 < (vdPeakI Y k : ℤ) then 1 else 0) +
  (if (vdPeakJ Y k : ℤ) < 1 - 0 then 1 else 0) +
  (if (Y.cols : ℤ) - 1 - 1 < (vdPeakJ Y k : ℤ) then 1 else 0)

theorem length_filter_range (n : ℕ) (p : ℕ → Bool) :
    ((List.range n).filter p).length =
      ∑ k ∈ Finset.range n, if p k then 1 else 0 := by
  induction n with
  | zero => rfl
  | succ n ih =>
      rw [List.range_succ, List.filter_append, List.length_append, ih,
        Finset.sum_range_succ]
      by_cases h : p n
      · simp [h]
      · simp [h]

theorem length_vdInvalidList (Y : Arr3 ℝ) :
    (vdInvalidList Y).length = ∑ k ∈ Finset.range Y.n, windowBadCount Y k := by
  unfold vdInvalidList windowBadCount
  rw [List.length_append, List.length_append, List.length_append,
    length_filter_range, length_filter_range, length_filter_range,
    length_filter_range, ← Finset.sum_add_distrib, ← Finset.sum_add_distrib,
    ← Finset.sum_add_distrib]
  refine Finset.sum_congr rfl (fun k _ => ?_)
  simp only [decide_eq_true_eq]

theorem windowBadCount_one (Y : Arr3 ℝ) (k : ℕ) :
    windowBadCount (oneWin Y.rows Y.cols (Y.data k)) 0 = windowBadCount Y k := rfl

/-!
### Transport between block windows and whole-batch windows
-/

theorem sliding_window_block_data (img : ℕ → ℕ → ℝ) (imShape ws ov : ℕ × ℕ)
    (bs be k : ℕ)
    (hbs : bs ≤ (fieldShapeNat imShape ws ov).1 * (fieldShapeNat imShape ws ov).2) :
    (sliding_window_array img imShape ws ov (some (bs, be))).data k =
      (sliding_window_array img imShape ws ov none).data (bs + k) := by
  funext p q
  unfold sliding_window_array
  dsimp only
  rw [min_eq_left hbs, Nat.zero_add]

theorem pipeCorr_block_data (fa fb : ℕ → ℕ → ℝ) (imShape ws ov : ℕ × ℕ)
    (bs be k : ℕ)
    (hbs : bs ≤ (fieldShapeNat imShape ws ov).1 * (fieldShapeNat imShape ws ov).2) :
    (pipeCorr fa fb imShape ws ov (some (bs, be))).data k =
      (pipeCorr fa fb imShape ws ov none).data (bs + k) := by
  unfold pipeCorr fftshiftArr irfft2Arr mulArr conjArr rfft2Arr
  dsimp only
  rw [sliding_window_block_data fa imShape ws ov bs be k hbs,
    sliding_window_block_data fb imShape ws ov bs be k hbs,
    show (sliding_window_array fa imShape ws ov (some (bs, be))).rows = ws.1 from rfl,
    show (sliding_window_array fa imShape ws ov none).rows = ws.1 from rfl,
    show (sliding_window_array fa imShape ws ov (some (bs, be))).cols = ws.2 from rfl,
    show (sliding_window_array fa imShape ws ov none).cols = ws.2 from rfl,
    show (sliding_window_array fb imShape ws ov (some (bs, be))).rows = ws.1 from rfl,
    show (sliding_window_array fb imShape ws ov none).rows = ws.1 from rfl,
    show (sliding_window_array fb imShape ws ov (some (bs, be))).cols = ws.2 from rfl,
    show (sliding_window_array fb imShape ws ov none).cols = ws.2 from rfl]

theorem oneWin_block_transport (fa fb : ℕ → ℕ → ℝ) (imShape ws ov : ℕ × ℕ)
    (bs be j : ℕ)
    (hbs : bs ≤ (fieldShapeNat imShape ws ov).1 * (fieldShapeNat imShape ws ov).2) :
    oneWin (epsShift (pipeCorr fa fb imShape ws ov (some (bs, be)))).rows
        (epsShift (pipeCorr fa fb imShape ws ov (some (bs, be)))).cols
        ((epsShift (pipeCorr fa fb imShape ws ov (some (bs, be)))).data j) =
      oneWin (epsShift (pipeCorr fa fb imShape ws ov none)).rows
        (epsShift (pipeCorr fa fb imShape ws ov none)).cols
        ((epsShift (pipeCorr fa fb imShape ws ov none)).data (bs + j)) := by
  have hdata : (epsShift (pipeCorr fa fb imShape ws ov (some (bs, be)))).data j =
      (epsShift (pipeCorr fa fb imShape ws ov none)).data (bs + j) := by
    funext p q
    show (pipeCorr fa fb imShape ws ov (some (bs, be))).data j p q + epsDefault =
      (pipeCorr fa fb imShape ws ov none).data (bs + j) p q + epsDefault
    rw [pipeCorr_block_data fa fb imShape ws ov bs be j hbs]
  rw [show (epsShift (pipeCorr fa fb imShape ws ov (some (bs, be)))).rows =
      (epsShift (pipeCorr fa fb imShape ws ov none)).rows from rfl,
    show (epsShift (pipeCorr fa fb imShape ws ov (some (bs, be)))).cols =
      (epsShift (pipeCorr fa fb imShape ws ov none)).cols from rfl,
    hdata]

theorem block_window_transport (fa fb : ℕ → ℕ → ℝ) (imShape ws ov : ℕ × ℕ)
    (m : SubpixMethod) (bs be j : ℕ)
    (hbs : bs ≤ (fieldShapeNat imShape ws ov).1 * (fieldShapeNat imShape ws ov).2)
    (hj : j < (epsShift (pipeCorr fa fb imShape ws ov (some (bs, be)))).n)
    (hbsj : bs + j < (epsShift (pipeCorr fa fb imShape ws ov none)).n) :
    ((j ∈ vdInvalidList (epsShift (pipeCorr fa fb imShape ws ov (some (bs, be))))) ↔
      (bs + j ∈ vdInvalidList (epsShift (pipeCorr fa fb imShape ws ov none)))) ∧
    vdDispVx (epsShift (pipeCorr fa fb imShape ws ov (some (bs, be)))) m j =
      vdDispVx (epsShift (pipeCorr fa fb imShape ws ov none)) m (bs + j) ∧
    vdDispVy (epsShift (pipeCorr fa fb imShape ws ov (some (bs, be)))) m j =
      vdDispVy (epsShift (pipeCorr fa fb imShape ws ov none)) m (bs + j) ∧
    windowBadCount (epsShift (pipeCorr fa fb imShape ws ov (some (bs, be)))) j =
      windowBadCount (epsShift (pipeCorr fa fb imShape ws ov none)) (bs + j) := by
  have key := oneWin_block_transport fa fb imShape ws ov bs be j hbs
  refine ⟨?_, ?_, ?_, ?_⟩
  · rw [mem_vdInvalidList_one _ j hj, mem_vdInvalidList_one _ (bs + j) hbsj, key]
  · rw [← vdDispVx_one _ m j hj, ← vdDispVx_one _ m (bs + j) hbsj, key]
  · rw [← vdDispVy_one _ m j hj, ← vdDispVy_one _ m (bs + j) hbsj, key]
  · rw [← windowBadCount_one _ j, ← windowBadCount_one _ (bs + j), key]

theorem blockStep_ok (fa fb : ℕ → ℕ → ℝ) (imShape ws ov : ℕ × ℕ)
    (sm : SubpixMethod) (N apb i : ℕ) (acc : BlockAcc) (tr : List Ev)
    (hsm : sm ≠ .unsupported)
    (hnd : (vdInvalidList (epsShift (pipeCorr fa fb imShape ws ov
        (some (i * apb, (i + 1) * apb))))).length ≠
      (pipeCorr fa fb imShape ws ov (some (i * apb, (i + 1) * apb))).n) :
    blockStep fa fb imShape ws ov .circular false sm N apb (.ok acc, tr) i =
      (.ok ⟨fun k => if i * apb ≤ k ∧ k < min ((i + 1) * apb) N then
              (if (k - i * apb) ∈ vdInvalidList (epsShift (pipeCorr fa fb imShape
                  ws ov (some (i * apb, (i + 1) * apb)))) then none
               else some (vdDispVx (epsShift (pipeCorr fa fb imShape ws ov
                  (some (i * apb, (i + 1) * apb)))) sm (k - i * apb)))
            else acc.u k,
            fun k => if i * apb ≤ k ∧ k < min ((i + 1) * apb) N then
              (if (k - i * apb) ∈ vdInvalidList (epsShift (pipeCorr fa fb imShape
                  ws ov (some (i * apb, (i + 1) * apb)))) then none
               else some (vdDispVy (epsShift (pipeCorr fa fb imShape ws ov
                  (some (i * apb, (i + 1) * apb)))) sm (k - i * apb)))
            else acc.v k,
            acc.bad + (vdInvalidList (epsShift (pipeCorr fa fb imShape ws ov
              (some (i * apb, (i + 1) * apb))))).length⟩,
       tr ++ [Ev.extracted] ++ [Ev.correlated] ++ [Ev.displaced]) := by
  simp only [blockStep]
  rw [show fft_correlate_images
      (sliding_window_array fa imShape ws ov (some (i * apb, (i + 1) * apb)))
      (sliding_window_array fb imShape ws ov (some (i * apb, (i + 1) * apb)))
      .circular false =
    Except.ok (pipeCorr fa fb imShape ws ov (some (i * apb, (i + 1) * apb))) from rfl]
  dsimp only
  rw [vecDisp_flat_case _ sm hsm hnd]

theorem block_start_le (N apb b : ℕ) (hapb : 0 < apb)
    (hb : b < (N + apb - 1) / apb) : b * apb ≤ N := by
  have h1 : (b + 1) * apb ≤ N + apb - 1 :=
    (Nat.le_div_iff_mul_le hapb).mp hb
  rw [add_one_mul] at h1
  omega

theorem ceil_blocks_cover (N apb : ℕ) (hapb : 0 < apb) :
    N ≤ ((N + apb - 1) / apb) * apb := by
  have h1 := Nat.div_add_mod (N + apb - 1) apb
  have h2 : (N + apb - 1) % apb < apb := Nat.mod_lt _ hapb
  rw [Nat.mul_comm]
  omega

theorem blockFold_spec (fa fb : ℕ → ℕ → ℝ) (imShape ws ov : ℕ × ℕ)
    (sm : SubpixMethod) (apb : ℕ) (m : ℕ)
    (hsm : sm ≠ .unsupported)
    (hnd : ∀ b, b < m →
      (vdInvalidList (epsShift (pipeCorr fa fb imShape ws ov
          (some (b * apb, (b + 1) * apb))))).length ≠
        (pipeCorr fa fb imShape ws ov (some (b * apb, (b + 1) * apb))).n)
    (hble : ∀ b, b < m →
      b * apb ≤ (fieldShapeNat imShape ws ov).1 * (fieldShapeNat imShape ws ov).2) :
    ∃ tr, (List.range m).foldl
        (blockStep fa fb imShape ws ov .circular false sm
          ((fieldShapeNat imShape ws ov).1 * (fieldShapeNat imShape ws ov).2) apb)
        (.ok ⟨fun _ => some 0, fun _ => some 0, 0⟩, []) =
      (.ok ⟨fun k => if k < min (m * apb)
              ((fieldShapeNat imShape ws ov).1 * (fieldShapeNat imShape ws ov).2) then
              (if k ∈ vdInvalidList (epsShift (pipeCorr fa fb imShape ws ov none))
               then none
               else some (vdDispVx (epsShift (pipeCorr fa fb imShape ws ov none)) sm k))
            else some 0,
            fun k => if k < min (m * apb)
              ((fieldShapeNat imShape ws ov).1 * (fieldShapeNat imShape ws ov).2) then
              (if k ∈ vdInvalidList (epsShift (pipeCorr fa fb imShape ws ov none))
               then none
               else some (vdDispVy (epsShift (pipeCorr fa fb imShape ws ov none)) sm k))
            else some 0,
            ∑ b ∈ Finset.range m, (vdInvalidList (epsShift (pipeCorr fa fb imShape
              ws ov (some (b * apb, (b + 1) * apb))))).length⟩, tr) := by
  induction m with
  | zero =>
      refine ⟨[], ?_⟩
      rw [List.range_zero, List.foldl_nil]
      have hu : (fun _ : ℕ => (some 0 : Option ℝ)) =
          fun k => if k < min (0 * apb)
              ((fieldShapeNat imShape ws ov).1 * (fieldShapeNat imShape ws ov).2) then
              (if k ∈ vdInvalidList (epsShift (pipeCorr fa fb imShape ws ov none))
               then none
               else some (vdDispVx (epsShift (pipeCorr fa fb imShape ws ov none)) sm k))
            else some 0 := by
        funext k; rw [if_neg (by omega)]
      have hv : (fun _ : ℕ => (some 0 : Option ℝ)) =
          fun k => if k < min (0 * apb)
              ((fieldShapeNat imShape ws ov).1 * (fieldShapeNat imShape ws ov).2) then
              (if k ∈ vdInvalidList (epsShift (pipeCorr fa fb imShape ws ov none))
               then none
               else some (vdDispVy (epsShift (pipeCorr fa fb imShape ws ov none)) sm k))
            else some 0 := by
        funext k; rw [if_neg (by omega)]
      have hb : (0 : ℕ) = ∑ b ∈ Finset.range 0,
          (vdInvalidList (epsShift (pipeCorr fa fb imShape ws ov
            (some (b * apb, (b + 1) * apb))))).length := by
        rw [Finset.range_zero, Finset.sum_empty]
      rw [← hu, ← hv, ← hb]
  | succ m ih =>
      obtain ⟨tr, htr⟩ := ih (fun b hb => hnd b (Nat.lt_succ_of_lt hb))
        (fun b hb => hble b (Nat.lt_succ_of_lt hb))
      refine ⟨tr ++ [Ev.extracted] ++ [Ev.correlated] ++ [Ev.displaced], ?_⟩
      rw [List.range_succ, List.foldl_append, htr, List.foldl_cons, List.foldl_nil]
      rw [blockStep_ok fa fb imShape ws ov sm _ apb m _ tr hsm
        (hnd m (Nat.lt_succ_self m))]
      have hbs := hble m (Nat.lt_succ_self m)
      have hnB : (epsShift (pipeCorr fa fb imShape ws ov
          (some (m * apb, (m + 1) * apb)))).n =
        min ((m + 1) * apb)
          ((fieldShapeNat imShape ws ov).1 * (fieldShapeNat imShape ws ov).2) -
        min (m * apb)
          ((fieldShapeNat imShape ws ov).1 * (fieldShapeNat imShape ws ov).2) := rfl
      have hnW : (epsShift (pipeCorr fa fb imShape ws ov none)).n =
        (fieldShapeNat imShape ws ov).1 * (fieldShapeNat imShape ws ov).2 := rfl
      simp only [Prod.mk.injEq, Except.ok.injEq, BlockAcc.mk.injEq]
      refine ⟨⟨?_, ?_, (Finset.sum_range_succ _ m).symm⟩, trivial⟩
      · funext k
        by_cases h1 : m * apb ≤ k ∧ k < min ((m + 1) * apb)
            ((fieldShapeNat imShape ws ov).1 * (fieldShapeNat imShape ws ov).2)
        · rw [if_pos h1, if_pos h1.2]
          have hj : k - m * apb < (epsShift (pipeCorr fa fb imShape ws ov
              (some (m * apb, (m + 1) * apb)))).n := by
            rw [hnB, min_eq_left hbs]; omega
          have hbsj : m * apb + (k - m * apb) <
              (epsShift (pipeCorr fa fb imShape ws ov none)).n := by
            rw [hnW]; omega
          obtain ⟨hmem, hvx, _, _⟩ := block_window_transport fa fb imShape ws ov
            sm (m * apb) ((m + 1) * apb) (k - m * apb) hbs hj hbsj
          rw [show m * apb + (k - m * apb) = k from by omega] at hmem hvx
          exact if_congr hmem rfl (congrArg some hvx)
        · rw [if_neg h1]
          by_cases h2 : k < min (m * apb)
              ((fieldShapeNat imShape ws ov).1 * (fieldShapeNat imShape ws ov).2)
          · rw [if_pos h2, if_pos (lt_of_lt_of_le h2
              (min_le_min (Nat.mul_le_mul_right apb (Nat.le_succ m)) le_rfl))]
          · rw [if_neg h2, if_neg (by omega)]
      · funext k
        by_cases h1 : m * apb ≤ k ∧ k < min ((m + 1) * apb)
            ((fieldShapeNat imShape ws ov).1 * (fieldShapeNat imShape ws ov).2)
        · rw [if_pos h1, if_pos h1.2]
          have hj : k - m * apb < (epsShift (pipeCorr fa fb imShape ws ov
              (some (m * apb, (m + 1) * apb)))).n := by
            rw [hnB, min_eq_left hbs]; omega
          have hbsj : m * apb + (k - m * apb) <
              (epsShift (pipeCorr fa fb imShape ws ov none)).n := by
            rw [hnW]; omega
          obtain ⟨hmem, _, hvy, _⟩ := block_window_transport fa fb imShape ws ov
            sm (m * apb) ((m + 1) * apb) (k - m * apb) hbs hj hbsj
          rw [show m * apb + (k - m * apb) = k from by omega] at hmem hvy
          exact if_congr hmem rfl (congrArg some hvy)
        · rw [if_neg h1]
          by_cases h2 : k < min (m * apb)
              ((fieldShapeNat imShape ws ov).1 * (fieldShapeNat imShape ws ov).2)
          · rw [if_pos h2, if_pos (lt_of_lt_of_le h2
              (min_le_min (Nat.mul_le_mul_right apb (Nat.le_succ m)) le_rfl))]
          · rw [if_neg h2, if_neg (by omega)]

theorem sum_block_counts (f : ℕ → ℕ) (apb N : ℕ) (m : ℕ) :
    ∑ b ∈ Finset.range m,
        ∑ k ∈ Finset.Ico (min (b * apb) N) (min ((b + 1) * apb) N), f k =
      ∑ k ∈ Finset.Ico 0 (min (m * apb) N), f k := by
  induction m with
  | zero =>
      rw [Finset.range_zero, Finset.sum_empty, Nat.zero_mul,
        min_eq_left (Nat.zero_le _), Finset.Ico_self, Finset.sum_empty]
  | succ m ih =>
      rw [Finset.sum_range_succ, ih]
      exact Finset.sum_Ico_consecutive _ (Nat.zero_le _)
        (min_le_min (Nat.mul_le_mul_right apb (Nat.le_succ m)) le_rfl)

theorem block_invalid_as_whole_sum (fa fb : ℕ → ℕ → ℝ) (imShape ws ov : ℕ × ℕ)
    (apb b : ℕ)
    (hbs : b * apb ≤ (fieldShapeNat imShape ws ov).1 * (fieldShapeNat imShape ws ov).2) :
    (vdInvalidList (epsShift (pipeCorr fa fb imShape ws ov
        (some (b * apb, (b + 1) * apb))))).length =
      ∑ k ∈ Finset.Ico
          (min (b * apb)
            ((fieldShapeNat imShape ws ov).1 * (fieldShapeNat imShape ws ov).2))
          (min ((b + 1) * apb)
            ((fieldShapeNat imShape ws ov).1 * (fieldShapeNat imShape ws ov).2)),
        windowBadCount (epsShift (pipeCorr fa fb imShape ws ov none)) k := by
  have hn : (epsShift (pipeCorr fa fb imShape ws ov
      (some (b * apb, (b + 1) * apb)))).n =
      min ((b + 1) * apb)
        ((fieldShapeNat imShape ws ov).1 * (fieldShapeNat imShape ws ov).2) -
      b * apb := by
    rw [show (epsShift (pipeCorr fa fb imShape ws ov
        (some (b * apb, (b + 1) * apb)))).n =
      min ((b + 1) * apb)
        ((fieldShapeNat imShape ws ov).1 * (fieldShapeNat imShape ws ov).2) -
      min (b * apb)
        ((fieldShapeNat imShape ws ov).1 * (fieldShapeNat imShape ws ov).2) from rfl,
      min_eq_left hbs]
  rw [length_vdInvalidList, hn, min_eq_left hbs, Finset.sum_Ico_eq_sum_range]
  refine Finset.sum_congr rfl (fun j hj => ?_)
  rw [Finset.mem_range] at hj
  have hj' : j < (epsShift (pipeCorr fa fb imShape ws ov
      (some (b * apb, (b + 1) * apb)))).n := by
    rw [hn]; exact hj
  have hbsj : b * apb + j < (epsShift (pipeCorr fa fb imShape ws ov none)).n := by
    rw [show (epsShift (pipeCorr fa fb imShape ws ov none)).n =
      (fieldShapeNat imShape ws ov).1 * (fieldShapeNat imShape ws ov).2 from rfl]
    omega
  obtain ⟨_, _, _, hbc⟩ := block_window_transport fa fb imShape ws ov .gaussian
    (b * apb) ((b + 1) * apb) j hbs hj' hbsj
  exact hbc

/-!
### C3: the block scheduler versus the whole-batch path
-/

/-- The correlation batch the unscheduled pipeline computes on the 8×8
zero frames with 4×4 windows and no overlap. -/
noncomputable def zeroCorr : Arr3 ℝ :=
  fftshiftArr (irfft2Arr (mulArr
    (conjArr (rfft2Arr (sliding_window_array zeroFrame (8, 8) (4, 4) (0, 0) none)))
    (rfft2Arr (sliding_window_array zeroFrame (8, 8) (4, 4) (0, 0) none))))

theorem zeroCorr_data (k p q : ℕ) : zeroCorr.data k p q = 0 := by
  unfold zeroCorr fftshiftArr irfft2Arr mulArr conjArr rfft2Arr
  dsimp only
  unfold fftshiftOne
  apply irfft2One_zeroFn
  intro u k'
  rw [rfft2One_zeroFn (sliding_window_array zeroFrame (8, 8) (4, 4) (0, 0) none).rows
    (sliding_window_array zeroFrame (8, 8) (4, 4) (0, 0) none).cols
    ((sliding_window_array zeroFrame (8, 8) (4, 4) (0, 0) none).data k)
    (fun _ _ => rfl), map_zero, zero_mul]

theorem zeroCorr_peaks (k : ℕ) :
    vdPeakI (epsShift zeroCorr) k = 0 ∧ vdPeakJ (epsShift zeroCorr) k = 0 := by
  refine vdPeak_of_const _ k ((0 : ℝ) + epsDefault) ?_
  funext p q
  show zeroCorr.data k p q + epsDefault = 0 + epsDefault
  rw [zeroCorr_data]

theorem zeroCorr_invalid_length :
    (vdInvalidList (epsShift zeroCorr)).length = 8 := by
  unfold vdInvalidList
  rw [show (epsShift zeroCorr).n = 4 from rfl]
  rw [show List.range 4 = [0, 1, 2, 3] from rfl]
  norm_num [fun k => (zeroCorr_peaks k).1, fun k => (zeroCorr_peaks k).2,
    List.filter, show (epsShift zeroCorr).rows = 4 from rfl,
    show (epsShift zeroCorr).cols = 4 from rfl]

theorem pipeCorrZero_data (br : Option (ℕ × ℕ)) (k p q : ℕ) :
    (pipeCorr zeroFrame zeroFrame (8, 8) (4, 4) (0, 0) br).data k p q = 0 := by
  unfold pipeCorr fftshiftArr irfft2Arr mulArr conjArr rfft2Arr
  dsimp only
  unfold fftshiftOne
  apply irfft2One_zeroFn
  intro u k'
  rw [rfft2One_zeroFn (sliding_window_array zeroFrame (8, 8) (4, 4) (0, 0) br).rows
    (sliding_window_array zeroFrame (8, 8) (4, 4) (0, 0) br).cols
    ((sliding_window_array zeroFrame (8, 8) (4, 4) (0, 0) br).data k)
    (fun _ _ => rfl), map_zero, zero_mul]

theorem blockZero_nondeg (b : ℕ) (hb : b < 4) :
    (vdInvalidList (epsShift (pipeCorr zeroFrame zeroFrame (8, 8) (4, 4) (0, 0)
        (some (b, b + 1))))).length ≠
      (pipeCorr zeroFrame zeroFrame (8, 8) (4, 4) (0, 0)
        (some (b, b + 1))).n := by
  have hn : (epsShift (pipeCorr zeroFrame zeroFrame (8, 8) (4, 4) (0, 0)
      (some (b, b + 1)))).n = 1 := by
    show min (b + 1) 4 - min b 4 = 1
    omega
  have hn' : (pipeCorr zeroFrame zeroFrame (8, 8) (4, 4) (0, 0)
      (some (b, b + 1))).n = 1 := by
    show min (b + 1) 4 - min b 4 = 1
    omega
  have hpk : vdPeakI (epsShift (pipeCorr zeroFrame zeroFrame (8, 8) (4, 4) (0, 0)
        (some (b, b + 1)))) 0 = 0 ∧
      vdPeakJ (epsShift (pipeCorr zeroFrame zeroFrame (8, 8) (4, 4) (0, 0)
        (some (b, b + 1)))) 0 = 0 := by
    refine vdPeak_of_const _ 0 ((0 : ℝ) + epsDefault) ?_
    funext p q
    show (pipeCorr zeroFrame zeroFrame (8, 8) (4, 4) (0, 0)
        (some (b, b + 1))).data 0 p q + epsDefault = 0 + epsDefault
    rw [pipeCorrZero_data]
  have hrows : (epsShift (pipeCorr zeroFrame zeroFrame (8, 8) (4, 4) (0, 0)
      (some (b, b + 1)))).rows = 4 := rfl
  have hcols : (epsShift (pipeCorr zeroFrame zeroFrame (8, 8) (4, 4) (0, 0)
      (some (b, b + 1)))).cols = 4 := by
    show 2 * ((4 : ℕ) / 2 + 1 - 1) = 4
    norm_num
  have hlen : (vdInvalidList (epsShift (pipeCorr zeroFrame zeroFrame (8, 8) (4, 4)
      (0, 0) (some (b, b + 1))))).length = 2 := by
    unfold vdInvalidList
    rw [hn, show List.range 1 = [0] from rfl]
    norm_num [hpk.1, hpk.2, List.filter, hrows, hcols, -Prod.mk_zero_zero]
  rw [hlen, hn']
  decide

/-- C3 (counterexample): a memory ceiling of 10 elements triggers block
scheduling (`num_areas = 4 > 10/16`) but admits zero windows per block
(`areas_per_block = 10 // 16 = 0`), so the scheduler crashes computing
`int(np.ceil(num_areas / 0))`, while the unscheduled pipeline on the same
zero frames returns `(u, v, sig2noise)` grids — the two paths are not
bit-identical for this small-enough ceiling. -/
theorem c3_tiny_ceiling_not_bit_identical :
    (extended_search_area_piv zeroFrame zeroFrame (8, 8) (4, 4) (0, 0) 1
      none .circular .gaussian none 2 false (some 10)).1 ≠
    (extended_search_area_piv zeroFrame zeroFrame (8, 8) (4, 4) (0, 0) 1
      none .circular .gaussian none 2 false none).1 := by
  have hL : extended_search_area_piv zeroFrame zeroFrame (8, 8) (4, 4) (0, 0) 1
      none .circular .gaussian none 2 false (some 10) =
      (.error .schedulingOverflow, []) := by
    simp only [extended_search_area_piv, Option.getD_none, Option.getD_some]
    rw [if_neg (by decide), if_neg (by decide), if_neg (by decide), if_neg (by decide)]
    rw [show fieldShapeNat (8, 8) (4, 4) (0, 0) = (2, 2) from by decide]
    rw [show blockTriggered (some 10) (4, 4) ((2, 2).1 * (2, 2).2) = true from by
      unfold blockTriggered; norm_num]
    rw [if_pos rfl]
    rw [if_pos (by decide)]
  have hR : (extended_search_area_piv zeroFrame zeroFrame (8, 8) (4, 4)
      (0, 0) 1 none .circular .gaussian none 2 false none).1.isOk = true := by
    simp only [extended_search_area_piv, Option.getD_none]
    rw [if_neg (by decide), if_neg (by decide), if_neg (by decide), if_neg (by decide)]
    rw [show blockTriggered none (4, 4)
        ((fieldShapeNat (8, 8) (4, 4) (0, 0)).1 *
          (fieldShapeNat (8, 8) (4, 4) (0, 0)).2) = false from rfl]
    rw [if_neg (by simp)]
    simp only [fft_correlate_images, Bool.false_eq_true, if_false]
    have hnd : (vdInvalidList (epsShift zeroCorr)).length ≠ zeroCorr.n := by
      rw [zeroCorr_invalid_length]
      decide
    rw [show (fftshiftArr (irfft2Arr (mulArr
        (conjArr (rfft2Arr (sliding_window_array zeroFrame (8, 8) (4, 4) (0, 0) none)))
        (rfft2Arr (sliding_window_array zeroFrame (8, 8) (4, 4) (0, 0) none))))) =
      zeroCorr from rfl]
    rw [vecDisp_grid_case zeroCorr _ _ .gaussian (by decide) hnd]
    rfl
  intro h
  rw [hL] at h
  rw [← h] at hR
  simp [Except.isOk, Except.toBool] at hR

/-- C3 (amended): when the memory ceiling triggers block scheduling but
still admits at least one search area per block
(`areas_per_block = max_array_size // area_size > 0`), and neither any
block's correlation batch nor the whole batch hits the degenerate
duplicate-invalid early return of the displacement converter, the
block-scheduled pipeline returns exactly the whole-batch pipeline's
result — the same `(u, v, sig2noise)` grids and the same aggregate bad-peak
count — and that aggregate count is the sum of the per-block invalid
counts. -/
theorem block_scheduling_matches_whole_batch
    (fa fb : ℕ → ℕ → ℝ) (imShape ws ov : ℕ × ℕ) (dt : ℝ)
    (sm : SubpixMethod) (M w : ℕ)
    (ho1 : ov.1 < ws.1) (ho2 : ov.2 < ws.2)
    (hi1 : ws.2 ≤ imShape.1) (hi2 : ws.1 ≤ imShape.2)
    (hsm : sm ≠ .unsupported)
    (htrig : blockTriggered (some M) ws
      ((fieldShapeNat imShape ws ov).1 * (fieldShapeNat imShape ws ov).2) = true)
    (hapb : 0 < M / (ws.1 * ws.2))
    (hndb : ∀ b, b < ((fieldShapeNat imShape ws ov).1 * (fieldShapeNat imShape ws ov).2
          + M / (ws.1 * ws.2) - 1) / (M / (ws.1 * ws.2)) →
      (vdInvalidList (epsShift (pipeCorr fa fb imShape ws ov
          (some (b * (M / (ws.1 * ws.2)), (b + 1) * (M / (ws.1 * ws.2))))))).length ≠
        (pipeCorr fa fb imShape ws ov
          (some (b * (M / (ws.1 * ws.2)), (b + 1) * (M / (ws.1 * ws.2))))).n)
    (hndw : (vdInvalidList (epsShift (pipeCorr fa fb imShape ws ov none))).length ≠
      (pipeCorr fa fb imShape ws ov none).n) :
    (extended_search_area_piv fa fb imShape ws ov dt none .circular sm none w
        false (some M)).1 =
      (extended_search_area_piv fa fb imShape ws ov dt none .circular sm none w
        false none).1 ∧
    ∀ out, (extended_search_area_piv fa fb imShape ws ov dt none .circular sm none w
        false (some M)).1 = .ok out →
      out.totalBad = ∑ b ∈ Finset.range
          (((fieldShapeNat imShape ws ov).1 * (fieldShapeNat imShape ws ov).2
            + M / (ws.1 * ws.2) - 1) / (M / (ws.1 * ws.2))),
        (vdInvalidList (epsShift (pipeCorr fa fb imShape ws ov
          (some (b * (M / (ws.1 * ws.2)), (b + 1) * (M / (ws.1 * ws.2))))))).length := by
  obtain ⟨tr, htr⟩ := blockFold_spec fa fb imShape ws ov sm (M / (ws.1 * ws.2))
    (((fieldShapeNat imShape ws ov).1 * (fieldShapeNat imShape ws ov).2
      + M / (ws.1 * ws.2) - 1) / (M / (ws.1 * ws.2)))
    hsm hndb
    (fun b hb => block_start_le _ _ b hapb hb)
  have hcover : (fieldShapeNat imShape ws ov).1 * (fieldShapeNat imShape ws ov).2 ≤
      (((fieldShapeNat imShape ws ov).1 * (fieldShapeNat imShape ws ov).2
        + M / (ws.1 * ws.2) - 1) / (M / (ws.1 * ws.2))) * (M / (ws.1 * ws.2)) :=
    ceil_blocks_cover _ _ hapb
  have hc1 : ¬(ws.1 ≤ ov.1 ∨ ws.2 ≤ ov.2) := by omega
  have hc2 : ¬(ws.1 < ws.1 ∨ ws.2 < ws.2) := by omega
  have hc3 : ¬(imShape.1 < ws.2 ∨ imShape.2 < ws.1) := by omega
  have hc4 : ¬(ws.1 < ws.1 ∨ (True ∧ ws.2 < ws.2)) := by
    simp only [true_and]; omega
  have hapbne : ¬(M / (ws.1 * ws.2) = 0) := by omega
  constructor
  · simp only [extended_search_area_piv, Option.getD_none, Option.getD_some]
    rw [if_neg hc1, if_neg hc1, if_neg hc2, if_neg hc2, if_neg hc3, if_neg hc3,
      if_neg hc4, if_neg hc4]
    rw [if_pos htrig, if_neg hapbne, htr]
    rw [show blockTriggered none ws
      ((fieldShapeNat imShape ws ov).1 * (fieldShapeNat imShape ws ov).2) = false
      from rfl]
    rw [if_neg (show ¬(false = true) from by decide)]
    rw [show fft_correlate_images
        (sliding_window_array fa imShape ws ov none)
        (sliding_window_array fb imShape ws ov none) .circular false =
      Except.ok (pipeCorr fa fb imShape ws ov none) from rfl]
    dsimp only
    rw [vecDisp_grid_case (pipeCorr fa fb imShape ws ov none) _ _ sm hsm hndw]
    dsimp only
    simp only [finishPiv]
    simp only [Except.ok.injEq, PivOutput.mk.injEq]
    refine ⟨?_, ?_, trivial, trivial, trivial, ?_⟩
    · funext r q
      simp only [reshapeGrid]
      by_cases hrq : r < (fieldShapeNat imShape ws ov).1 ∧
          q < (fieldShapeNat imShape ws ov).2
      · rw [if_pos hrq, if_pos hrq]
        have hk : r * (fieldShapeNat imShape ws ov).2 + q <
            (fieldShapeNat imShape ws ov).1 * (fieldShapeNat imShape ws ov).2 := by
          have h1 : r * (fieldShapeNat imShape ws ov).2 + q <
              (r + 1) * (fieldShapeNat imShape ws ov).2 := by
            rw [add_one_mul]; omega
          exact lt_of_lt_of_le h1
            (Nat.mul_le_mul_right (fieldShapeNat imShape ws ov).2 hrq.1)
        rw [min_eq_right hcover, if_pos hk]
      · rw [if_neg hrq, if_neg hrq]
    · funext r q
      simp only [reshapeGrid]
      by_cases hrq : r < (fieldShapeNat imShape ws ov).1 ∧
          q < (fieldShapeNat imShape ws ov).2
      · rw [if_pos hrq, if_pos hrq]
        have hk : r * (fieldShapeNat imShape ws ov).2 + q <
            (fieldShapeNat imShape ws ov).1 * (fieldShapeNat imShape ws ov).2 := by
          have h1 : r * (fieldShapeNat imShape ws ov).2 + q <
              (r + 1) * (fieldShapeNat imShape ws ov).2 := by
            rw [add_one_mul]; omega
          exact lt_of_lt_of_le h1
            (Nat.mul_le_mul_right (fieldShapeNat imShape ws ov).2 hrq.1)
        rw [min_eq_right hcover, if_pos hk]
      · rw [if_neg hrq, if_neg hrq]
    · calc ∑ b ∈ Finset.range
            (((fieldShapeNat imShape ws ov).1 * (fieldShapeNat imShape ws ov).2
              + M / (ws.1 * ws.2) - 1) / (M / (ws.1 * ws.2))),
            (vdInvalidList (epsShift (pipeCorr fa fb imShape ws ov
              (some (b * (M / (ws.1 * ws.2)),
                (b + 1) * (M / (ws.1 * ws.2))))))).length
          = ∑ b ∈ Finset.range
            (((fieldShapeNat imShape ws ov).1 * (fieldShapeNat imShape ws ov).2
              + M / (ws.1 * ws.2) - 1) / (M / (ws.1 * ws.2))),
            ∑ k ∈ Finset.Ico
              (min (b * (M / (ws.1 * ws.2)))
                ((fieldShapeNat imShape ws ov).1 * (fieldShapeNat imShape ws ov).2))
              (min ((b + 1) * (M / (ws.1 * ws.2)))
                ((fieldShapeNat imShape ws ov).1 * (fieldShapeNat imShape ws ov).2)),
              windowBadCount (epsShift (pipeCorr fa fb imShape ws ov none)) k :=
            Finset.sum_congr rfl (fun b hb =>
              block_invalid_as_whole_sum fa fb imShape ws ov (M / (ws.1 * ws.2)) b
                (block_start_le _ _ b hapb (Finset.mem_range.mp hb)))
        _ = ∑ k ∈ Finset.Ico 0
              (min ((((fieldShapeNat imShape ws ov).1 *
                  (fieldShapeNat imShape ws ov).2
                + M / (ws.1 * ws.2) - 1) / (M / (ws.1 * ws.2))) * (M / (ws.1 * ws.2)))
                ((fieldShapeNat imShape ws ov).1 * (fieldShapeNat imShape ws ov).2)),
              windowBadCount (epsShift (pipeCorr fa fb imShape ws ov none)) k :=
            sum_block_counts _ _ _ _
        _ = (vdInvalidList (epsShift (pipeCorr fa fb imShape ws ov none))).length := by
            rw [min_eq_right hcover, length_vdInvalidList,
              show (epsShift (pipeCorr fa fb imShape ws ov none)).n =
                (fieldShapeNat imShape ws ov).1 * (fieldShapeNat imShape ws ov).2
                from rfl,
              Finset.range_eq_Ico]
  · intro out hout
    simp only [extended_search_area_piv, Option.getD_none, Option.getD_some] at hout
    rw [if_neg hc1, if_neg hc2, if_neg hc3, if_neg hc4] at hout
    rw [if_pos htrig, if_neg hapbne, htr] at hout
    dsimp only at hout
    simp only [finishPiv] at hout
    rw [Except.ok.injEq] at hout
    subst hout
    rfl

/-- Witness for the amended C3: on the 8×8 zero frames with 4×4 windows,
no overlap and a 16-element ceiling (one window per block, four blocks),
the block-scheduled result equals the whole-batch result and the aggregate
count is the sum over the four blocks. -/
theorem block_scheduling_matches_whole_batch_witness :
    (extended_search_area_piv zeroFrame zeroFrame (8, 8) (4, 4) (0, 0) 1
        none .circular .gaussian none 2 false (some 16)).1 =
      (extended_search_area_piv zeroFrame zeroFrame (8, 8) (4, 4) (0, 0) 1
        none .circular .gaussian none 2 false none).1 ∧
    ∀ out, (extended_search_area_piv zeroFrame zeroFrame (8, 8) (4, 4) (0, 0) 1
        none .circular .gaussian none 2 false (some 16)).1 = .ok out →
      out.totalBad = ∑ b ∈ Finset.range
          (((fieldShapeNat (8, 8) (4, 4) (0, 0)).1 *
              (fieldShapeNat (8, 8) (4, 4) (0, 0)).2
            + 16 / (4 * 4) - 1) / (16 / (4 * 4))),
        (vdInvalidList (epsShift (pipeCorr zeroFrame zeroFrame (8, 8) (4, 4) (0, 0)
          (some (b * (16 / (4 * 4)), (b + 1) * (16 / (4 * 4))))))).length :=
  block_scheduling_matches_whole_batch zeroFrame zeroFrame (8, 8) (4, 4) (0, 0) 1
    .gaussian 16 2 (by decide) (by decide) (by decide) (by decide) (by decide)
    (by
      rw [show (fieldShapeNat (8, 8) (4, 4) (0, 0)).1 *
          (fieldShapeNat (8, 8) (4, 4) (0, 0)).2 = 4 from by decide]
      unfold blockTriggered
      norm_num)
    (by decide)
    (by
      intro b hb
      have hb4 : b < 4 := by
        rw [show ((fieldShapeNat (8, 8) (4, 4) (0, 0)).1 *
            (fieldShapeNat (8, 8) (4, 4) (0, 0)).2
          + 16 / (4 * 4) - 1) / (16 / (4 * 4)) = 4 from by decide] at hb
        exact hb
      rw [show (16 / (4 * 4) : ℕ) = 1 from by decide, Nat.mul_one, Nat.mul_one]
      exact blockZero_nondeg b hb4)
    (by
      rw [show pipeCorr zeroFrame zeroFrame (8, 8) (4, 4) (0, 0) none = zeroCorr
          from rfl,
        zeroCorr_invalid_length,
        show zeroCorr.n = 4 from rfl]
      decide)

/-- Witness for the amended C8 at concrete configurations: each of the
three geometry errors aborts with an empty trace, while the three
method-name errors fire only after extraction, after extraction alone, and
after the full extract-correlate-displace chain respectively. -/
theorem config_error_timing_witness :
    extended_search_area_piv zeroFrame zeroFrame (8, 8) (4, 4) (4, 4) 1
      none .circular .gaussian none 2 false none = (.error .overlapTooLarge, []) ∧
    extended_search_area_piv zeroFrame zeroFrame (8, 8) (4, 4) (0, 0) 1
      (some (2, 2)) .circular .gaussian none 2 false none =
      (.error .searchTooSmall, []) ∧
    extended_search_area_piv zeroFrame zeroFrame (8, 8) (16, 4) (0, 0) 1
      none .circular .gaussian none 2 false none = (.error .windowTooLarge, []) ∧
    extended_search_area_piv zeroFrame zeroFrame (8, 8) (4, 4) (0, 0) 1
      none .circular .unsupported none 2 false none =
      (.error .subpixMethodNotImplemented, [Ev.extracted, Ev.correlated]) ∧
    extended_search_area_piv zeroFrame zeroFrame (8, 8) (4, 4) (0, 0) 1
      none .unsupported .gaussian none 2 false none =
      (.error .corrMethodNotImplemented, [Ev.extracted]) ∧
    extended_search_area_piv zeroFrame zeroFrame (8, 8) (4, 4) (0, 0) 1
      none .circular .gaussian (some .peak2peak) 2 false none =
      (.error .s2nNotImplemented, [Ev.extracted, Ev.correlated, Ev.displaced]) :=
  ⟨(config_error_timing zeroFrame zeroFrame (8, 8) (4, 4) (4, 4) 1 none
      .circular .gaussian none 2 false none).1 (by decide),
   (config_error_timing zeroFrame zeroFrame (8, 8) (4, 4) (0, 0) 1 (some (2, 2))
      .circular .gaussian none 2 false none).2.1 (by decide) (by decide),
   (config_error_timing zeroFrame zeroFrame (8, 8) (16, 4) (0, 0) 1 none
      .circular .gaussian none 2 false none).2.2.1 (by decide) (by decide)
      (by decide),
   (config_error_timing zeroFrame zeroFrame (8, 8) (4, 4) (0, 0) 1 none
      .circular .unsupported none 2 false none).2.2.2.1 (by decide) (by decide)
      (by decide) (by decide),
   (config_error_timing zeroFrame zeroFrame (8, 8) (4, 4) (0, 0) 1 none
      .unsupported .gaussian none 2 false none).2.2.2.2.1 (by decide) (by decide)
      (by decide) (by decide),
   (config_error_timing zeroFrame zeroFrame (8, 8) (4, 4) (0, 0) 1 none
      .circular .gaussian none 2 false none).2.2.2.2.2 (by decide) (by decide)
      (by decide) (by decide) (by decide)
      (by
        rw [show pipeCorr zeroFrame zeroFrame (8, 8) (4, 4) (0, 0) none = zeroCorr
            from rfl,
          zeroCorr_invalid_length,
          show zeroCorr.n = 4 from rfl]
        decide)
      .peak2peak⟩

end PivGpu
